import Mathlib

/-!
Verification development for the comfy-pack workflow/model engine
(`src/comfy_pack/utils.py`, `src/comfy_pack/package.py`).

The Python code is shallowly embedded: JSON values become the inductive
`JVal`, Python `dict`s become insertion-ordered association lists with the
update-in-place / append-on-new semantics of `dict.__setitem__` (`dinsert`),
fallible code returns `Except`, and the file-system state touched by
`retrive_models` becomes an explicit `FsState` record together with a trace
of write operations.
-/

namespace ComfyPack

/-- A scalar JSON value.  Python `float`s are modelled by rationals (every
literal appearing in the claims is exactly representable); `bool` is kept
separate from `int` but participates in numeric comparison like Python
`bool`. -/
inductive JPrim where
  | str (s : String)
  | int (n : Int)
  | float (q : Rat)
  | bool (b : Bool)
  | null
deriving DecidableEq, Repr

/-- A JSON value as manipulated by the Python code.  The engine only ever
inspects arrays of scalars (two-element `[node_id, slot]` link references and
flat lists of enumerated choice values), so arrays are restricted to scalar
elements. -/
inductive JVal where
  | prim (p : JPrim)
  | list (vs : List JPrim)
deriving DecidableEq, Repr

/-- A string value. -/
def JVal.str (s : String) : JVal := .prim (.str s)

/-- An integer value. -/
def JVal.int (n : Int) : JVal := .prim (.int n)

/-- A float value. -/
def JVal.float (q : Rat) : JVal := .prim (.float q)

/-- A boolean value. -/
def JVal.bool (b : Bool) : JVal := .prim (.bool b)

/-- `d[k]` lookup in an insertion-ordered association list (Python `dict`). -/
def dlookup {κ α : Type} [DecidableEq κ] (k : κ) : List (κ × α) → Option α
  | [] => none
  | (k', v) :: rest => if k' = k then some v else dlookup k rest

/-- `k in d` for a Python `dict`. -/
def dcontains {κ α : Type} [DecidableEq κ] (k : κ) (d : List (κ × α)) : Bool :=
  (dlookup k d).isSome

/-- `d[k] = v` for a Python `dict`: an existing key keeps its position, a new
key is appended. -/
def dinsert {κ α : Type} [DecidableEq κ] (k : κ) (v : α) : List (κ × α) → List (κ × α)
  | [] => [(k, v)]
  | (k', v') :: rest => if k' = k then (k, v) :: rest else (k', v') :: dinsert k v rest

/-- `del d[k]` / `Path.unlink`: removes the entry for `k`. -/
def dremove {κ α : Type} [DecidableEq κ] (k : κ) : List (κ × α) → List (κ × α)
  | [] => []
  | (k', v) :: rest => if k' = k then rest else (k', v) :: dremove k rest

/-- `str.startswith(pre)`. -/
def pyStartsWith (s pre : String) : Bool := pre.data.isPrefixOf s.data

/-- A character of the class `[a-zA-Z0-9_]` (the characters the regex
`[^a-zA-Z0-9_]` in `_normalize_to_identifier` leaves alone). -/
def isIdentChar (c : Char) : Bool := c.isAlpha || c.isDigit || c = '_'

/-- A character that may start an identifier. -/
def isIdentStart (c : Char) : Bool := c.isAlpha || c = '_'

/-- `str.isidentifier()`, restricted to ASCII identifiers (all names the
engine manipulates are ASCII; the Unicode XID classes are not modelled). -/
def pyIsIdentifier (s : String) : Bool :=
  match s.data with
  | [] => false
  | c :: rest => isIdentStart c && rest.all isIdentChar

/-- `re.sub(r"[^a-zA-Z0-9_]", "_", s)`: each character outside the class is
replaced by an underscore. -/
def subNonIdent (l : List Char) : List Char :=
  l.map fun c => if isIdentChar c then c else '_'

/-- `re.sub(r"_+", "_", s)`: collapses each run of underscores to one. -/
def collapseUnders : List Char → List Char
  | [] => []
  | [c] => [c]
  | c :: c' :: rest =>
    if c = '_' ∧ c' = '_' then collapseUnders (c' :: rest)
    else c :: collapseUnders (c' :: rest)

/-- `s.strip("_")`: drops leading and trailing underscores. -/
def stripUnders (l : List Char) : List Char :=
  ((l.dropWhile (· = '_')).reverse.dropWhile (· = '_')).reverse

/-- `_normalize_to_identifier` from `utils.py`.  After the first substitution
every character is ASCII, so the ASCII `isDigit`/`toLower` used below agree
with Python's `str.isdigit`/`str.lower` on the intermediate strings. -/
def normalize_to_identifier (s : String) : String :=
  if s.data = [] then "_"
  else
    let l := subNonIdent s.data
    let l := match l with
      | c :: _ => if c.isDigit then '_' :: l else l
      | [] => l
    let l := collapseUnders l
    let l := stripUnders l
    let l := if l = [] then ['_'] else l
    ⟨l.map Char.toLower⟩

/-- One node of a workflow document.  `class_type`, `_meta.title`,
`_meta.options` and `inputs` come from the JSON; `id` is the field
`_parse_workflow` assigns in place (empty before parsing). -/
structure Node where
  class_type : String
  title : String
  options : Option (List (String × JVal)) := none
  inputs : List (String × JVal)
  id : String := ""
deriving DecidableEq, Repr

/-- A workflow document: the flat mapping from node id to node. -/
abbrev Workflow := List (String × Node)

/-- `CPACK_OUTPUT_NODES` from `utils.py`. -/
def CPACK_OUTPUT_NODES : List String := ["CPackOutputFile", "CPackOutputImage"]

/-- `CPACK_PATH_INPUT_NODES` from `utils.py`. -/
def CPACK_PATH_INPUT_NODES : List String := ["CPackInputFile", "CPackInputImage"]

/-- `isinstance(v, list) and len(v) == 2`: the link-reference test. -/
def isLink : JVal → Bool
  | .list [_, _] => true
  | _ => false

/-- The `tuple(v)` key of a two-element link value. -/
def linkKey : JVal → Option (JPrim × JPrim)
  | .list [a, b] => some (a, b)
  | _ => none

/-- The reverse dependency map of `_parse_workflow`'s first pass: for every
node and every input slot holding a two-element link `v`, records
`dep_map[tuple(v)] = (node, input_name)`. -/
def depMapOf (wf : Workflow) : List ((JPrim × JPrim) × (Node × String)) :=
  wf.foldl
    (fun dm p =>
      p.2.inputs.foldl
        (fun dm q =>
          match linkKey q.2 with
          | some k => dinsert k (p.2, q.1) dm
          | none => dm)
        dm)
    []

/-- `_get_node_identifier` from `utils.py`.  `dep_map = none` models the
`dep_map=None` default used for output nodes; an empty map is falsy in
Python, which coincides with the failing lookup below. -/
def get_node_identifier (node : Node)
    (dep_map : Option (List ((JPrim × JPrim) × (Node × String)))) : String :=
  if pyIsIdentifier node.title then node.title
  else
    match dep_map with
    | some dm =>
      match dlookup (JPrim.str node.id, JPrim.int 0) dm with
      | some (_, input_name) => normalize_to_identifier input_name
      | none => normalize_to_identifier node.title
    | none => normalize_to_identifier node.title

/-- Errors raised by the workflow functions in `utils.py` (all are Python
`ValueError`s or key/iteration errors; only the kind is modelled). -/
inductive WFError where
  | formatError
  | unsupportedNode
  | keyError
  | invalidNode
  | invalidOutputType
  | stopIteration
  | typeError
deriving DecidableEq, Repr

/-- The result of `_parse_workflow`: the named input and output mappings,
plus the document as mutated in place (each node annotated with its `id`). -/
structure ParseResult where
  inputs : Workflow
  outputs : Workflow
  doc : Workflow
deriving DecidableEq, Repr

/-- One step of `_parse_workflow`'s classification pass over the items of the
document.  Note that the collision test in the output branch checks the
`inputs` mapping, exactly as `utils.py` line 94 does. -/
def classifyStep (dm : List ((JPrim × JPrim) × (Node × String)))
    (acc : Workflow × Workflow) (p : String × Node) : Workflow × Workflow :=
  let node := {p.2 with id := p.1}
  if pyStartsWith node.class_type "CPackInput" then
    let name := get_node_identifier node (some dm)
    let name := if dcontains name acc.1 then name ++ "_" ++ p.1 else name
    (dinsert name node acc.1, acc.2)
  else if pyStartsWith node.class_type "CPackOutput" then
    let name := get_node_identifier node none
    let name := if dcontains name acc.1 then name ++ "_" ++ p.1 else name
    (acc.1, dinsert name node acc.2)
  else acc

/-- `_parse_workflow` from `utils.py` (also exported as `parse_workflow`).
The in-place `node["id"] = id` mutation of the second pass is reflected in
the returned `doc`; the nodes stored in `dep_map` during the first pass are
the un-annotated ones, and their node component is never inspected. -/
def parse_workflow (wf : Workflow) : Except WFError ParseResult :=
  if dcontains "last_node_id" wf then .error .formatError
  else
    let dm := depMapOf wf
    let io := wf.foldl (classifyStep dm) ([], [])
    .ok ⟨io.1, io.2, wf.map fun p => (p.1, {p.2 with id := p.1})⟩

/-- `_get_node_value`: `next(iter(node["inputs"].values()))`; an empty
`inputs` dict raises `StopIteration`. -/
def get_node_value (node : Node) : Except WFError JVal :=
  match node.inputs with
  | [] => .error .stopIteration
  | (_, v) :: _ => .ok v

/-- `_set_node_value`: overwrites the value of the node's first input slot.
Caller-supplied `Path` values are already represented by their portable
(`as_posix`) string form. -/
def set_node_value (node : Node) (v : JVal) : Except WFError Node :=
  match node.inputs with
  | [] => .error .stopIteration
  | (k, _) :: rest => .ok {node with inputs := (k, v) :: rest}

/-- `(Path(dir) / name).as_posix()` for a normalized directory path (no
trailing slash, not `.` or the root). -/
def posixJoin (dir name : String) : String := dir ++ "/" ++ name

/-- One iteration of `populate_workflow`'s loop over the supplied values:
looks the key up in the parsed input mapping (`KeyError` when absent),
re-checks that the node still classifies as an input node, and overwrites the
first input slot of `workflow[node["id"]]`. -/
def applyInputValue (ispec : Workflow) (wf : Workflow) (kv : String × JVal) :
    Except WFError Workflow :=
  match dlookup kv.1 ispec with
  | none => .error .keyError
  | some node =>
    if ¬ pyStartsWith node.class_type "CPackInput" then .error .invalidNode
    else
      match dlookup node.id wf with
      | none => .error .keyError
      | some cur => do
        let upd ← set_node_value cur kv.2
        .ok (dinsert node.id upd wf)

/-- One iteration of `populate_workflow`'s loop over the parsed outputs: a
node of a recognized output kind gets
`workflow[node_id]["inputs"]["filename_prefix"] = (output_path / f"{session_id}{node_id}_").as_posix()`. -/
def applyOutputPrefix (output_path session_id : String) (wf : Workflow)
    (p : String × Node) : Except WFError Workflow :=
  if p.2.class_type ∈ CPACK_OUTPUT_NODES then
    match dlookup p.2.id wf with
    | none => .error .keyError
    | some cur =>
      let pfx : JVal := .str (posixJoin output_path (session_id ++ p.2.id ++ "_"))
      .ok (dinsert p.2.id {cur with inputs := dinsert "filename_prefix" pfx cur.inputs} wf)
  else .ok wf

/-- `populate_workflow` from `utils.py`.  The Python function mutates the
parsed document in place and returns it; here the annotated document from
`parse_workflow` is threaded through both loops. -/
def populate_workflow (wf : Workflow) (output_path session_id : String)
    (values : List (String × JVal)) : Except WFError Workflow := do
  let pr ← parse_workflow wf
  let wf1 ← values.foldlM (applyInputValue pr.inputs) pr.doc
  pr.outputs.foldlM (applyOutputPrefix output_path session_id) wf1

/-- The suffixes of a character list, from the full list down to `[]`. -/
def suffixes : List Char → List (List Char)
  | [] => [[]]
  | c :: cs => (c :: cs) :: suffixes cs

/-- `fnmatch`-style glob matching with `*` and `?` (character classes `[...]`
are not modelled; the theorems below only use patterns without `[`).  A `*`
matches an arbitrary, possibly empty, stretch of the name: the rest of the
pattern is tried against every suffix. -/
def globMatch : List Char → List Char → Bool
  | [], s => s.isEmpty
  | p :: ps, s =>
    if p = '*' then (suffixes s).any (globMatch ps)
    else
      match s with
      | [] => false
      | c :: cs => if p = '?' then globMatch ps cs else p = c && globMatch ps cs

/-- The value stored for one output name by `retrieve_workflow_outputs`:
either a single path or the raw list of matches. -/
inductive OutEntry where
  | single (p : String)
  | many (ps : List String)
deriving DecidableEq, Repr

/-- The overall result of `retrieve_workflow_outputs`. -/
inductive RetrievedOutputs where
  | single (p : String)
  | many (ps : List String)
  | byName (m : List (String × OutEntry))
deriving DecidableEq, Repr

/-- `list(output_path.glob(pattern))` over a modelled directory listing: the
names in `listing` that match, returned as full paths under `output_path`. -/
def globDir (output_path : String) (listing : List String) (pattern : String) :
    List String :=
  (listing.filter fun f => globMatch pattern.data f.data).map (posixJoin output_path)

/-- `retrieve_workflow_outputs` from `utils.py`.  The produced files are
modelled by `listing`, the names present in the output directory.  In the
single-output branch `next(iter(outputs.items()))` takes the first entry
(`StopIteration` on an empty mapping is unreachable there). -/
def retrieve_workflow_outputs (wf : Workflow) (output_path : String)
    (listing : List String) (session_id : String) :
    Except WFError RetrievedOutputs := do
  let pr ← parse_workflow wf
  if pr.outputs.length ≠ 1 then
    .ok (.byName (pr.outputs.map fun p =>
      let ms := globDir output_path listing (p.2.id ++ "_*")
      (p.1, match ms with
            | [m] => .single m
            | _ => .many ms)))
  else
    match pr.outputs with
    | [] => .error .stopIteration
    | (_, node) :: _ =>
      if node.class_type ∉ CPACK_OUTPUT_NODES then .error .invalidOutputType
      else
        let outs := globDir output_path listing (session_id ++ node.id ++ "_*")
        match outs with
        | [m] => .ok (.single m)
        | _ => .ok (.many outs)

/-- The Python runtime type of a literal value (`type(value)`), as used when
a field is typed after its default. -/
inductive PyType where
  | pstr
  | pint
  | pfloat
  | pbool
  | plist
  | pnone
deriving DecidableEq, Repr

/-- `type(value)` as a tag. -/
def typeOf : JVal → PyType
  | .prim (.str _) => .pstr
  | .prim (.int _) => .pint
  | .prim (.float _) => .pfloat
  | .prim (.bool _) => .pbool
  | .prim .null => .pnone
  | .list _ => .plist

/-- Python truthiness of a JSON value (`if not options`, `if values := ...`). -/
def jtruthy : JVal → Bool
  | .prim (.str s) => s ≠ ""
  | .prim (.int n) => n ≠ 0
  | .prim (.float q) => q ≠ 0
  | .prim (.bool b) => b
  | .prim .null => false
  | .list vs => vs ≠ []

/-- A value viewed as a number for comparison purposes (`bool` counts as
`0`/`1`, exactly as in Python). -/
def jnum : JVal → Option Rat
  | .prim (.int n) => some (n : Rat)
  | .prim (.float q) => some q
  | .prim (.bool b) => some (if b then 1 else 0)
  | _ => none

/-- A Python `<` comparison between two values; non-numeric operands raise
`TypeError`. -/
def jlt (a b : JVal) : Except WFError Bool :=
  match jnum a, jnum b with
  | some x, some y => .ok (decide (x < y))
  | _, _ => .error .typeError

/-- The kind of a generated pydantic field: the first component of the
`(type, Field(...))` pairs built by `generate_input_model`. -/
inductive FieldType where
  | path
  | literal (t : PyType)
  | choice (vals : List JPrim)
  | integer
  | floating
deriving DecidableEq, Repr

/-- One generated field: its type plus the `Field(...)` keywords actually
passed (`default`, `ge`, `le`; an absent bound is `PydanticUndefined`). -/
structure FieldSpec where
  type : FieldType
  default : Option JVal := none
  ge : Option JVal := none
  le : Option JVal := none
deriving DecidableEq, Repr

/-- The body of `generate_input_model`'s loop for one named input node.
`tuple(values)` over a truthy non-list option is not meaningfully modelled
(it would iterate a scalar) and is mapped to `TypeError`. -/
def genField (p : String × Node) : Except WFError (String × FieldSpec) :=
  let node := p.2
  if node.class_type ∈ CPACK_PATH_INPUT_NODES then
    .ok (p.1, {type := .path})
  else if node.class_type = "CPackInputValue" then do
    let value ← get_node_value node
    let opts := node.options.getD []
    if opts = [] then
      .ok (p.1, {type := .literal (typeOf value), default := some value})
    else
      let numeric : Except WFError (String × FieldSpec) :=
        if ["min", "max", "round", "precision", "step"].any (fun f => dcontains f opts) then do
          let isFloat ← jlt ((dlookup "round" opts).getD (.int 1)) (.int 1)
          .ok (p.1, {type := if isFloat then .floating else .integer,
                     default := some value,
                     ge := dlookup "min" opts, le := dlookup "max" opts})
        else
          .ok (p.1, {type := .literal (typeOf value), default := some value})
      match dlookup "values" opts with
      | some v =>
        if jtruthy v then
          match v with
          | .list vs => .ok (p.1, {type := .choice vs, default := some value})
          | _ => .error .typeError
        else numeric
      | none => numeric
  else .error .unsupportedNode

/-- `generate_input_model` from `utils.py`: the pydantic model is represented
by the ordered list of named fields passed to `create_model`. -/
def generate_input_model (wf : Workflow) : Except WFError (List (String × FieldSpec)) := do
  let pr ← parse_workflow wf
  pr.inputs.mapM genField

/-- One entry of the snapshot manifest's `models` list. -/
structure ModelEntry where
  filename : String
  sha256 : String
  disabled : Bool := false
deriving DecidableEq, Repr

/-- A file-system entry at a model path: a regular file with some content, or
a symbolic link whose target is `MODEL_DIR / sha`. -/
inductive FsEntry where
  | file (content : String)
  | symlink (sha : String)
deriving DecidableEq, Repr

/-- The file-system state `retrive_models` reads and writes: the global
content-addressed store (`MODEL_DIR`, name → entry), the workspace model
slots (filename → entry), and whether `MODEL_DIR` itself exists. -/
structure FsState where
  store : List (String × FsEntry)
  ws : List (String × FsEntry)
  storeDirExists : Bool := true
deriving DecidableEq, Repr

/-- The write operations `retrive_models` can perform, in order.  The claims
about idempotence and conflict handling are stated over this trace. -/
inductive FsOp where
  | mkdirStore
  | move (filename sha : String)
  | unlinkWs (filename : String)
  | symlink (sha filename : String)
  | download (sha : String)
  | unlinkStore (sha : String)
  | copyToStore (sha : String)
deriving DecidableEq, Repr

/-- Whether an entry denotes an existing file once links are followed.  Links
always point into the store; a link to a store entry that is itself a link is
treated as dangling (link chains never arise from the modelled operations on
the states the claims are about). -/
def entryExists (s : FsState) : FsEntry → Bool
  | .file _ => true
  | .symlink sha =>
    match dlookup sha s.store with
    | some (.file _) => true
    | _ => false

/-- `(workspace / filename).exists()` (follows symlinks). -/
def wsExists (s : FsState) (filename : String) : Bool :=
  match dlookup filename s.ws with
  | some e => entryExists s e
  | none => false

/-- `(MODEL_DIR / sha).exists()` (follows symlinks). -/
def storeExists (s : FsState) (sha : String) : Bool :=
  match dlookup sha s.store with
  | some e => entryExists s e
  | none => false

/-- `(workspace / filename).is_file()` (follows symlinks). -/
def wsIsFile (s : FsState) (filename : String) : Bool :=
  match dlookup filename s.ws with
  | some (.file _) => true
  | some (.symlink sha) =>
    match dlookup sha s.store with
    | some (.file _) => true
    | _ => false
  | none => false

/-- `(workspace / filename).is_symlink()` (does not follow the link). -/
def wsIsSymlink (s : FsState) (filename : String) : Bool :=
  match dlookup filename s.ws with
  | some (.symlink _) => true
  | _ => false

/-- Errors `retrive_models` can surface.  `linkConflict` is the
`RuntimeError` of `create_model_symlink`; `fileExists` is the `OSError` of
`os.symlink` over a dangling link; `inputExhausted` models `input()`
blocking forever once the scripted responses run out. -/
inductive LinkError where
  | linkConflict (filename : String)
  | fileExists (filename : String)
  | inputExhausted
deriving DecidableEq, Repr

/-- `create_model_symlink` from `package.py`: an existing symlink at the
target is unlinked and replaced, an existing regular file is an
unrecoverable conflict.  (`target.parent.mkdir(parents=True, exist_ok=True)`
is a no-op here: workspace parent directories always exist in the model.) -/
def create_model_symlink (s : FsState) (sha filename : String) :
    Except LinkError (FsState × List FsOp) :=
  if wsExists s filename then
    if wsIsSymlink s filename then
      let s' := {s with ws := dinsert filename (.symlink sha) (dremove filename s.ws)}
      .ok (s', [.unlinkWs filename, .symlink sha filename])
    else .error (.linkConflict filename)
  else
    match dlookup filename s.ws with
    | some _ => .error (.fileExists filename)
    | none => .ok ({s with ws := dinsert filename (.symlink sha) s.ws}, [.symlink sha filename])

/-- A scripted user response for the interactive acquisition loop: a URL
whose download yields the given content (`none`: the download fails and
leaves nothing behind), a local path holding the given content (`none`: the
path does not exist), or an explicit skip. -/
inductive UserResponse where
  | url (result : Option String)
  | localPath (content : Option String)
  | skip
deriving DecidableEq, Repr

/-- The content readable at `MODEL_DIR / sha` (`get_sha256` hashes through a
symlink). -/
def storeContent (s : FsState) (sha : String) : Option String :=
  match dlookup sha s.store with
  | some (.file c) => some c
  | some (.symlink sha') =>
    match dlookup sha' s.store with
    | some (.file c) => some c
    | _ => none
  | none => none

/-- The `while True` prompt loop of `retrive_models` for one missing model,
driven by the scripted responses.  `hashOf` models `get_sha256`.  The `try`
block swallows every exception (including a failing `create_model_symlink`)
and re-prompts, exactly as the Python loop does. -/
def interactiveLoop (hashOf : String → String) (sha filename : String) :
    FsState → List FsOp → List UserResponse →
    Except LinkError (FsState × List FsOp × List UserResponse)
  | _, _, [] => .error .inputExhausted
  | s, ops, r :: rest =>
    match r with
    | .skip => .ok (s, ops, rest)
    | .url res =>
      let dres : FsState × List FsOp :=
        match res with
        | some content => ({s with store := dinsert sha (.file content) s.store},
                           ops ++ [FsOp.download sha])
        | none => (s, ops)
      let s' := dres.1
      let ops' := dres.2
      if ¬ storeExists s' sha then interactiveLoop hashOf sha filename s' ops' rest
      else if hashOf ((storeContent s' sha).getD "") ≠ sha then
        let s'' := {s' with store := dremove sha s'.store}
        interactiveLoop hashOf sha filename s'' (ops' ++ [FsOp.unlinkStore sha]) rest
      else
        match create_model_symlink s' sha filename with
        | .ok (s'', ops'') => .ok (s'', ops' ++ ops'', rest)
        | .error _ => interactiveLoop hashOf sha filename s' ops' rest
    | .localPath content =>
      match content with
      | none => interactiveLoop hashOf sha filename s ops rest
      | some c =>
        if hashOf c ≠ sha then interactiveLoop hashOf sha filename s ops rest
        else
          let s' := {s with store := dinsert sha (.file c) s.store}
          let ops' := ops ++ [.copyToStore sha]
          match create_model_symlink s' sha filename with
          | .ok (s'', ops'') => .ok (s'', ops' ++ ops'', rest)
          | .error _ => interactiveLoop hashOf sha filename s' ops' rest

/-- The body of `retrive_models`' loop for one manifest entry
(`package.py` lines 237-322).  If the workspace path exists and the store
does not yet hold the hash while the path is a (followed) file, the entry is
moved into the store unverified and replaced by a link; a store hit creates
the link; otherwise the entry is skipped when disabled or when downloads are
off, and the interactive loop runs when they are on. -/
def retrieveModelStep (hashOf : String → String) (download : Bool) :
    FsState × List FsOp × List UserResponse → ModelEntry →
    Except LinkError (FsState × List FsOp × List UserResponse)
  | (s, ops, resp), m =>
  if wsExists s m.filename then
    if ¬ storeExists s m.sha256 ∧ wsIsFile s m.filename then
      match dlookup m.filename s.ws with
      | some e =>
        let s' : FsState :=
          {s with ws := dremove m.filename s.ws, store := dinsert m.sha256 e s.store}
        match create_model_symlink s' m.sha256 m.filename with
        | .ok (s'', ops'') => .ok (s'', ops ++ [FsOp.move m.filename m.sha256] ++ ops'', resp)
        | .error err => .error err
      | none => .ok (s, ops, resp)
    else .ok (s, ops, resp)
  else if storeExists s m.sha256 then
    match create_model_symlink s m.sha256 m.filename with
    | .ok (s'', ops'') => .ok (s'', ops ++ ops'', resp)
    | .error err => .error err
  else if m.disabled then .ok (s, ops, resp)
  else if ¬ download then .ok (s, ops, resp)
  else interactiveLoop hashOf m.sha256 m.filename s ops resp

/-- `MODEL_DIR.mkdir(parents=True, exist_ok=True)`: creates the store
directory when absent, recording the write; a no-op otherwise. -/
def mkdirStore (s : FsState) : FsState × List FsOp :=
  if s.storeDirExists then (s, [])
  else ({s with storeDirExists := true}, [FsOp.mkdirStore])

/-- `retrive_models` from `package.py` (source spelling kept).  `hashOf`
models `get_sha256`, `responses` scripts the user-input provider, and the
returned list is the trace of file-system writes performed. -/
def retrive_models (hashOf : String → String) (models : List ModelEntry)
    (s : FsState) (download : Bool) (responses : List UserResponse) :
    Except LinkError (FsState × List FsOp) :=
  if models = [] then .ok (s, [])
  else
    match models.foldlM (retrieveModelStep hashOf download)
        ((mkdirStore s).1, (mkdirStore s).2, responses) with
    | .ok (s', ops, _) => .ok (s', ops)
    | .error err => .error err

/-! ### Concrete fixtures used by the individual claims -/

/-- C1 fixture: an injective stand-in for `get_sha256`. -/
def c1Hash : String → String := fun c => "h:" ++ c

/-- C1 fixture: a manifest entry expecting hash `cafe01`. -/
def c1Entry : ModelEntry := ⟨"unet.bin", "cafe01", false⟩

/-- C1 fixture: the workspace path holds a regular file whose content hashes
to `h:WRONGDATA`, not to the expected `cafe01`; the store is empty. -/
def c1State : FsState := ⟨[], [("unet.bin", .file "WRONGDATA")], true⟩

/-- C2 fixture: two output nodes whose titles derive the same name `out`. -/
def c2Doc : Workflow :=
  [("1", {class_type := "CPackOutputFile", title := "out",
          inputs := [("filename_prefix", .str "a")]}),
   ("2", {class_type := "CPackOutputImage", title := "out",
          inputs := [("filename_prefix", .str "b")]})]

/-- C3 fixture: a `CPackInputValue` node with value `0.5` and options
`{min: 0, max: 1, step: 0.01}` (no `round` key). -/
def c3Doc : Workflow :=
  [("5", {class_type := "CPackInputValue", title := "strength",
          inputs := [("value", .float (1/2))],
          options := some [("min", .int 0), ("max", .int 1), ("step", .float (1/100))]})]

/-- C5 fixture: input node `1` (`width`) feeds input node `2` through a link,
so node `2` inherits the consumer slot name `seed`; injecting a value for
`width` destroys the link. -/
def c5Doc : Workflow :=
  [("1", {class_type := "CPackInputValue", title := "width",
          inputs := [("seed", .list [.str "2", .int 0])]}),
   ("2", {class_type := "CPackInputValue", title := "My Seed!",
          inputs := [("value", .int 42)]})]

/-- C8 fixture: two recognized output nodes with the same derived name. -/
def c8Doc : Workflow :=
  [("1", {class_type := "CPackOutputFile", title := "out",
          inputs := [("filename_prefix", .str "old1")]}),
   ("2", {class_type := "CPackOutputFile", title := "out",
          inputs := [("filename_prefix", .str "old2")]})]

/-- C9 fixture: a document carrying the sentinel key `last_node_id`. -/
def c9Doc : Workflow :=
  [("last_node_id", {class_type := "X", title := "t", inputs := []})]

/-! ### Claims -/

/-- **C1 (counterexample).** The workspace path `unet.bin` exists as a
regular (non-symlink) file whose content hashes to `h:WRONGDATA`, not to the
manifest hash `cafe01` — so its content differs from the content expected for
that hash.  Yet model resolution succeeds (no `LinkConflictError`), moves the
file into the store under `cafe01` unverified, and replaces the workspace
path with a symlink, refuting the claim that resolution fails and never
moves or replaces such a file. -/
theorem c1_resolution_moves_conflicting_file :
    retrive_models c1Hash [c1Entry] c1State true [] =
      .ok (⟨[("cafe01", .file "WRONGDATA")], [("unet.bin", .symlink "cafe01")], true⟩,
           [.move "unet.bin" "cafe01", .symlink "cafe01" "unet.bin"]) ∧
    c1Hash "WRONGDATA" ≠ c1Entry.sha256 := by
  exact ⟨rfl, by decide⟩

/-- **C2 (code bug).** `c2Doc` contains two output nodes, both deriving the
name `out`.  Because `utils.py` line 94 tests the collision against the
`inputs` mapping instead of `outputs`, the second node is stored under the
unsuffixed key `out`, silently replacing the first: the parsed outputs
mapping has a single entry holding node `2`, and node `1` is dropped instead
of being kept under a suffixed key `out_2`. -/
theorem c2_output_collision_drops_node :
    (c2Doc.filter fun p => pyStartsWith p.2.class_type "CPackOutput").length = 2 ∧
    (parse_workflow c2Doc).map (fun pr => pr.outputs.map Prod.fst) = .ok ["out"] ∧
    (parse_workflow c2Doc).map (fun pr => pr.outputs.map fun q => q.2.id) = .ok ["2"] := by
  exact ⟨rfl, rfl, rfl⟩

/-- **C3 (counterexample).** On the node of `c3Doc` (`CPackInputValue`,
value `0.5`, options `{min: 0, max: 1, step: 0.01}`, no `round`), schema
generation produces an *integer*-typed field — `options.get("round", 1)`
defaults to `1` and `1 < 1` is false — not the floating-point-typed field the
claim states. -/
theorem c3_missing_round_gives_integer_field :
    generate_input_model c3Doc =
      .ok [("strength", {type := .integer, default := some (.float (1/2)),
                         ge := some (.int 0), le := some (.int 1)})] ∧
    FieldType.integer ≠ FieldType.floating := by
  exact ⟨rfl, by decide⟩

/-- **C3 (amended).** Schema generation on an input node with class_type
`CPackInputValue`, current value `0.5`, and options
`{min: 0, max: 1, step: 0.01}` (no `round` key) produces an
integer-typed field (an absent `round` defaults to `1`, which selects the
integer kind) with default `0.5`, lower bound `0`, and upper bound `1`. -/
theorem c3_amended_integer_field_with_bounds :
    generate_input_model c3Doc =
      .ok [("strength", {type := .integer, default := some (.float (1/2)),
                         ge := some (.int 0), le := some (.int 1)})] := by
  exact rfl

/-- **C5 (counterexample).** Parsing `c5Doc` yields input names
`["width", "seed"]` (node `2` is named after the slot of the link that
consumes it).  Populating `width` with `123` overwrites that link, so
re-parsing the populated document yields `["width", "my_seed"]`: the name
`seed` is gone, refuting the claim that population never renames any node. -/
theorem c5_populate_renames_link_named_input :
    ((parse_workflow c5Doc).map fun pr => pr.inputs.map Prod.fst) = .ok ["width", "seed"] ∧
    ((populate_workflow c5Doc "/out" "" [("width", .int 123)]).bind fun wf2 =>
      (parse_workflow wf2).map fun pr => pr.inputs.map Prod.fst) = .ok ["width", "my_seed"] ∧
    "seed" ∉ ["width", "my_seed"] := by
  exact ⟨rfl, rfl, by decide⟩

/-- **C7 (code bug).** On the input string `"9abc"` the normalization first
prepends an underscore to guard the leading digit, but the later
`strip("_")` removes that guard again: the result is `"9abc"` itself, which
is not a valid bare identifier — refuting the claim that normalization
always returns a valid identifier. -/
theorem c7_normalize_returns_non_identifier :
    normalize_to_identifier "9abc" = "9abc" ∧
    pyIsIdentifier (normalize_to_identifier "9abc") = false := by
  exact ⟨rfl, rfl⟩

/-- **C8 (code bug).** Both nodes of `c8Doc` are recognized output nodes
(class `CPackOutputFile`), but because the parse collision bug drops node
`1` from the outputs mapping, population with `session_id = "run1_"` sets the
filename prefix of node `2` only: node `1` keeps its old prefix `old1`
instead of receiving `/out/run1_1_` as the claim requires for every
recognized output node. -/
theorem c8_dropped_output_keeps_old_prefix :
    ((populate_workflow c8Doc "/out" "run1_" []).map fun wf2 =>
      (wf2.map fun p => dlookup "filename_prefix" p.2.inputs)) =
      .ok [some (.str "old1"), some (.str "/out/run1_2_")] ∧
    (c8Doc.filter fun p => decide (p.2.class_type ∈ CPACK_OUTPUT_NODES)).length = 2 ∧
    JVal.str "old1" ≠ .str (posixJoin "/out" ("run1_" ++ "1" ++ "_")) := by
  exact ⟨rfl, rfl, by decide⟩

/-- **C9 (confirmed).** A document containing the sentinel top-level key
`last_node_id` (the marker of the incompatible non-API export format) makes
`parse_workflow` fail with the format error unconditionally: the result is
the same error for every such document, independent of any node it contains,
so no node is inspected before failing. -/
theorem c9_sentinel_key_rejected (wf : Workflow)
    (h : dcontains "last_node_id" wf = true) :
    parse_workflow wf = .error .formatError := by
  simp [parse_workflow, h]

/-- Witness for C9 at the concrete document `c9Doc`. -/
theorem c9_sentinel_key_rejected_witness :
    dcontains "last_node_id" c9Doc = true ∧
    parse_workflow c9Doc = .error .formatError :=
  ⟨rfl, c9_sentinel_key_rejected c9Doc rfl⟩

/-! ### Association-list lemmas -/

theorem dlookup_eq_none_of_not_mem_keys {κ α : Type} [DecidableEq κ] {k : κ}
    {l : List (κ × α)} (h : k ∉ l.map Prod.fst) : dlookup k l = none := by
  induction l with
  | nil => rfl
  | cons p rest ih =>
    simp only [List.map_cons, List.mem_cons] at h
    push_neg at h
    obtain ⟨pk, pv⟩ := p
    rw [dlookup, if_neg fun he => h.1 he.symm, ih h.2]

theorem dlookup_dremove_self {κ α : Type} [DecidableEq κ] {k : κ}
    {l : List (κ × α)} (h : (l.map Prod.fst).Nodup) :
    dlookup k (dremove k l) = none := by
  induction l with
  | nil => rfl
  | cons p rest ih =>
    simp only [List.map_cons, List.nodup_cons] at h
    obtain ⟨pk, pv⟩ := p
    by_cases he : pk = k
    · rw [dremove, if_pos he]
      exact dlookup_eq_none_of_not_mem_keys (he ▸ h.1)
    · rw [dremove, if_neg he, dlookup, if_neg he, ih h.2]

theorem dlookup_dinsert {κ α : Type} [DecidableEq κ] (k i : κ) (v : α)
    (l : List (κ × α)) :
    dlookup k (dinsert i v l) = if i = k then some v else dlookup k l := by
  induction l with
  | nil => rfl
  | cons p rest ih =>
    obtain ⟨pk, pv⟩ := p
    by_cases hp : pk = i
    · subst hp
      rw [dinsert, if_pos rfl, dlookup, dlookup]
      by_cases hik : pk = k
      · rw [if_pos hik, if_pos hik]
      · rw [if_neg hik, if_neg hik, if_neg hik]
    · rw [dinsert, if_neg hp, dlookup, dlookup]
      by_cases hk : pk = k
      · rw [if_pos hk, if_neg fun hik : i = k => hp (hik.symm ▸ hk), if_pos hk]
      · rw [if_neg hk, if_neg hk, ih]

/-- Membership of the store as a regular file, as a decidable check used in
the idempotence hypothesis. -/
def isStoreFile (s : FsState) (sha : String) : Bool :=
  match dlookup sha s.store with
  | some (.file _) => true
  | _ => false

theorem isStoreFile_elim {s : FsState} {sha : String}
    (h : isStoreFile s sha = true) :
    ∃ c, dlookup sha s.store = some (.file c) := by
  unfold isStoreFile at h
  split at h
  next c heq => exact ⟨c, heq⟩
  next => exact absurd h (by simp)

/-- The per-entry step of `retrive_models` leaves a correctly linked entry
untouched and performs no write. -/
theorem retrieveModelStep_linked (hashOf : String → String) (download : Bool)
    (s : FsState) (ops : List FsOp) (resp : List UserResponse) (m : ModelEntry)
    (hws : dlookup m.filename s.ws = some (.symlink m.sha256))
    (hst : isStoreFile s m.sha256 = true) :
    retrieveModelStep hashOf download (s, ops, resp) m = .ok (s, ops, resp) := by
  obtain ⟨c, heq⟩ := isStoreFile_elim hst
  have hse : storeExists s m.sha256 = true := by
    simp [storeExists, entryExists, heq]
  have hwe : wsExists s m.filename = true := by
    simp [wsExists, entryExists, hws, heq]
  unfold retrieveModelStep
  simp [hwe, hse]

/-- The fold of `retrive_models` over a fully linked manifest is the
identity on the state and adds no operation. -/
theorem retrive_fold_linked (hashOf : String → String) (download : Bool) :
    ∀ (models : List ModelEntry) (s : FsState) (ops : List FsOp)
      (resp : List UserResponse),
      (∀ m ∈ models, dlookup m.filename s.ws = some (.symlink m.sha256) ∧
        isStoreFile s m.sha256 = true) →
      models.foldlM (retrieveModelStep hashOf download) (s, ops, resp) =
        .ok (s, ops, resp) := by
  intro models
  induction models with
  | nil => intro s ops resp _; rfl
  | cons m ms ih =>
    intro s ops resp h
    have hm := h m (List.mem_cons_self m ms)
    rw [List.foldlM_cons,
        retrieveModelStep_linked hashOf download s ops resp m hm.1 hm.2]
    exact ih s ops resp fun m' hm' => h m' (List.mem_cons_of_mem m hm')

/-- **C4 (confirmed).** Model resolution is idempotent: on a workspace where
every manifest entry is already a symlink to the store entry of its hash
(and the store directory exists), `retrive_models` returns the state
unchanged with an empty trace of file-system writes — no moves, copies, link
creations or deletions — and raises no error.  This holds for any hash
function, download flag and scripted responses, so in particular for a
second run right after a first successful one. -/
theorem c4_resolution_idempotent (hashOf : String → String)
    (models : List ModelEntry) (s : FsState) (download : Bool)
    (resp : List UserResponse)
    (hdir : s.storeDirExists = true)
    (hlinked : ∀ m ∈ models, dlookup m.filename s.ws = some (.symlink m.sha256) ∧
      isStoreFile s m.sha256 = true) :
    retrive_models hashOf models s download resp = .ok (s, []) := by
  have hmk : mkdirStore s = (s, []) := by rw [mkdirStore, hdir]; rfl
  have hmk1 : (mkdirStore s).1 = s := by rw [hmk]
  have hmk2 : (mkdirStore s).2 = ([] : List FsOp) := by rw [hmk]
  unfold retrive_models
  by_cases hm : models = []
  · rw [if_pos hm]
  · rw [if_neg hm, hmk1, hmk2,
        retrive_fold_linked hashOf download models s [] resp hlinked]

/-- Witness for C4: a two-entry manifest, both entries already linked. -/
theorem c4_resolution_idempotent_witness :
    retrive_models c1Hash
      [⟨"vae.bin", "beef", false⟩, ⟨"clip.bin", "feed", true⟩]
      ⟨[("beef", .file "A"), ("feed", .file "B")],
       [("vae.bin", .symlink "beef"), ("clip.bin", .symlink "feed")], true⟩
      true [] =
      .ok (⟨[("beef", .file "A"), ("feed", .file "B")],
            [("vae.bin", .symlink "beef"), ("clip.bin", .symlink "feed")], true⟩, []) :=
  c4_resolution_idempotent c1Hash _ _ true [] rfl (by decide)

/-- **C1 (amended).** If the workspace path for a manifest entry exists as a
regular (non-symlink) file — whatever its content, verified nowhere — and
the global store does not yet hold the manifest hash, then resolving that
entry does *not* fail with a `LinkConflictError`: the file is moved into the
store under the manifest hash without any content verification, and the
workspace path is replaced by a symlink to that store entry. -/
theorem c1_amended_unverified_adoption (hashOf : String → String)
    (e : ModelEntry) (s : FsState) (download : Bool)
    (resp : List UserResponse) (c : String)
    (hws : dlookup e.filename s.ws = some (.file c))
    (hnodup : (s.ws.map Prod.fst).Nodup)
    (hst : dlookup e.sha256 s.store = none)
    (hdir : s.storeDirExists = true) :
    retrive_models hashOf [e] s download resp =
      .ok ({s with store := dinsert e.sha256 (.file c) s.store,
                   ws := dinsert e.filename (.symlink e.sha256) (dremove e.filename s.ws)},
           [.move e.filename e.sha256, .symlink e.sha256 e.filename]) := by
  have hwe : wsExists s e.filename = true := by
    unfold wsExists entryExists; rw [hws]
  have hse : storeExists s e.sha256 = false := by
    unfold storeExists; rw [hst]
  have hwf : wsIsFile s e.filename = true := by
    unfold wsIsFile; rw [hws]
  have hrm : dlookup e.filename (dremove e.filename s.ws) = none :=
    dlookup_dremove_self hnodup
  have hmk : mkdirStore s = (s, []) := by rw [mkdirStore, hdir]; rfl
  have hmk1 : (mkdirStore s).1 = s := by rw [hmk]
  have hmk2 : (mkdirStore s).2 = ([] : List FsOp) := by rw [hmk]
  have hstep :
      retrieveModelStep hashOf download (s, ([] : List FsOp), resp) e =
        .ok ({s with store := dinsert e.sha256 (.file c) s.store,
                     ws := dinsert e.filename (.symlink e.sha256) (dremove e.filename s.ws)},
             [.move e.filename e.sha256, .symlink e.sha256 e.filename], resp) := by
    simp only [retrieveModelStep]
    rw [hwe]
    simp only [hse, hwf, hws, if_true]
    rw [if_pos (by simp)]
    unfold create_model_symlink
    simp [wsExists, hrm]
  unfold retrive_models
  rw [if_neg (by simp), hmk1, hmk2, List.foldlM_cons, hstep]
  rfl

/-- Witness for C1's amended theorem at the concrete fixture state. -/
theorem c1_amended_unverified_adoption_witness :
    retrive_models c1Hash [c1Entry] c1State true [] =
      .ok ({c1State with store := dinsert "cafe01" (.file "WRONGDATA") c1State.store,
                         ws := dinsert "unet.bin" (.symlink "cafe01")
                                 (dremove "unet.bin" c1State.ws)},
           [.move "unet.bin" "cafe01", .symlink "cafe01" "unet.bin"]) :=
  c1_amended_unverified_adoption c1Hash c1Entry c1State true [] "WRONGDATA"
    rfl (by decide) rfl rfl

/-! ### Glob and prefix lemmas for output resolution -/

theorem suffixes_any_isEmpty (s : List Char) :
    (suffixes s).any (fun t => t.isEmpty) = true := by
  induction s with
  | nil => rfl
  | cons c cs ih => simp only [suffixes, List.any_cons, ih, Bool.or_true]

theorem globMatch_star (s : List Char) : globMatch ['*'] s = true := by
  have h1 : globMatch ['*'] s = (suffixes s).any (globMatch []) := rfl
  rw [h1]
  exact suffixes_any_isEmpty s

theorem globMatch_star_prefix (lit : List Char)
    (h : ∀ c ∈ lit, c ≠ '*' ∧ c ≠ '?') :
    ∀ s : List Char, globMatch (lit ++ ['*']) s = lit.isPrefixOf s := by
  induction lit with
  | nil =>
    intro s
    rw [List.nil_append, globMatch_star]
    cases s <;> rfl
  | cons c cs ih =>
    intro s
    have hc := h c (List.mem_cons_self c cs)
    have hcs : ∀ x ∈ cs, x ≠ '*' ∧ x ≠ '?' :=
      fun x hx => h x (List.mem_cons_of_mem c hx)
    cases s with
    | nil =>
      simp only [List.cons_append, globMatch, if_neg hc.1]
      rfl
    | cons d ds =>
      simp only [List.cons_append, globMatch, if_neg hc.1]
      rw [if_neg hc.2, show cs.append ['*'] = cs ++ ['*'] from rfl, ih hcs ds,
          show (c :: cs).isPrefixOf (d :: ds) = ((c == d) && cs.isPrefixOf ds) from rfl,
          Bool.beq_eq_decide_eq]

/-- A class type starting with `CPackOutput` does not start with
`CPackInput` (the two prefixes disagree at their sixth character). -/
theorem output_prefix_not_input {ct : String}
    (h : pyStartsWith ct "CPackOutput" = true) :
    pyStartsWith ct "CPackInput" = false := by
  by_contra hc
  rw [Bool.not_eq_false] at hc
  rw [pyStartsWith, List.isPrefixOf_iff_prefix] at h hc
  obtain ⟨t1, ht1⟩ := h
  obtain ⟨t2, ht2⟩ := hc
  rw [← ht1] at ht2
  have h11 : "CPackOutput".data = ['C', 'P', 'a', 'c', 'k', 'O', 'u', 't', 'p', 'u', 't'] := rfl
  have h10 : "CPackInput".data = ['C', 'P', 'a', 'c', 'k', 'I', 'n', 'p', 'u', 't'] := rfl
  rw [h11, h10] at ht2
  simp at ht2

theorem filter_eq_singleton_split {α : Type} (p : α → Bool) :
    ∀ (l : List α) (a : α), l.filter p = [a] →
      ∃ l1 l2, l = l1 ++ a :: l2 ∧ l1.filter p = [] ∧ l2.filter p = [] := by
  intro l
  induction l with
  | nil => intro a ha; cases ha
  | cons x xs ih =>
    intro a ha
    by_cases hx : p x = true
    · rw [List.filter_cons_of_pos hx] at ha
      obtain ⟨hxa, hrest⟩ := List.cons_eq_cons.mp ha
      exact ⟨[], xs, by rw [hxa, List.nil_append], rfl, hrest⟩
    · rw [List.filter_cons_of_neg hx] at ha
      obtain ⟨l1, l2, hsplit, h1, h2⟩ := ih a ha
      exact ⟨x :: l1, l2, by rw [hsplit, List.cons_append],
             by rw [List.filter_cons_of_neg hx, h1], h2⟩

/-- A fold of `classifyStep` over items with no output-classified node leaves
the outputs accumulator unchanged. -/
theorem classify_fold_outputs_nil (dm : List ((JPrim × JPrim) × (Node × String))) :
    ∀ (l : List (String × Node)) (acc : Workflow × Workflow),
      (∀ p ∈ l, pyStartsWith p.2.class_type "CPackOutput" = false) →
      (l.foldl (classifyStep dm) acc).2 = acc.2 := by
  intro l
  induction l with
  | nil => intro acc _; rfl
  | cons x xs ih =>
    intro acc h
    have hx := h x (List.mem_cons_self x xs)
    rw [List.foldl_cons]
    rw [ih (classifyStep dm acc x) fun p hp => h p (List.mem_cons_of_mem x hp)]
    unfold classifyStep
    by_cases hi : pyStartsWith x.2.class_type "CPackInput" = true
    · simp [hi]
    · simp [hi, hx]

/-- Parsing a document whose only output-classified node is `(id₀, n₀)`
produces an outputs mapping holding exactly that node, annotated with its
id, under some derived name. -/
theorem parse_single_output (wf : Workflow) (id₀ : String) (n₀ : Node)
    (hnf : dcontains "last_node_id" wf = false)
    (hout : wf.filter (fun p => pyStartsWith p.2.class_type "CPackOutput") = [(id₀, n₀)]) :
    ∃ inputs nm,
      parse_workflow wf =
        .ok ⟨inputs, [(nm, {n₀ with id := id₀})],
             wf.map fun p => (p.1, {p.2 with id := p.1})⟩ := by
  obtain ⟨l1, l2, hsplit, h1, h2⟩ :=
    filter_eq_singleton_split (fun p => pyStartsWith p.2.class_type "CPackOutput") wf
      (id₀, n₀) hout
  have hn₀ : pyStartsWith n₀.class_type "CPackOutput" = true := by
    have : (id₀, n₀) ∈ wf.filter (fun p => pyStartsWith p.2.class_type "CPackOutput") := by
      rw [hout]; exact List.mem_singleton.mpr rfl
    exact (List.mem_filter.mp this).2
  have hnil1 : ∀ p ∈ l1, pyStartsWith p.2.class_type "CPackOutput" = false := by
    intro p hp
    by_contra hcp
    rw [Bool.not_eq_false] at hcp
    have : p ∈ l1.filter (fun p => pyStartsWith p.2.class_type "CPackOutput") :=
      List.mem_filter.mpr ⟨hp, hcp⟩
    rw [h1] at this
    cases this
  have hnil2 : ∀ p ∈ l2, pyStartsWith p.2.class_type "CPackOutput" = false := by
    intro p hp
    by_contra hcp
    rw [Bool.not_eq_false] at hcp
    have : p ∈ l2.filter (fun p => pyStartsWith p.2.class_type "CPackOutput") :=
      List.mem_filter.mpr ⟨hp, hcp⟩
    rw [h2] at this
    cases this
  have hni : pyStartsWith n₀.class_type "CPackInput" = false := output_prefix_not_input hn₀
  have hni' : ¬ (pyStartsWith n₀.class_type "CPackInput" = true) := by
    rw [hni]; exact Bool.false_ne_true
  set dm := depMapOf wf with hdm
  set A := l1.foldl (classifyStep dm) ([], []) with hA
  have hA2 : A.2 = [] := classify_fold_outputs_nil dm l1 ([], []) hnil1
  set base := get_node_identifier {n₀ with id := id₀} none with hbase
  set nm := if dcontains base A.1 then base ++ "_" ++ id₀ else base with hnm
  have hstep : classifyStep dm A (id₀, n₀) = (A.1, [(nm, {n₀ with id := id₀})]) := by
    simp only [classifyStep]
    rw [if_neg hni', if_pos hn₀]
    rw [← hbase, ← hnm, hA2]
    rfl
  have hfold2 : (wf.foldl (classifyStep dm) ([], [])).2 = [(nm, {n₀ with id := id₀})] := by
    rw [hsplit, List.foldl_append, List.foldl_cons, ← hA, hstep,
        classify_fold_outputs_nil dm l2 (A.1, [(nm, {n₀ with id := id₀})]) hnil2]
  refine ⟨(wf.foldl (classifyStep dm) ([], [])).1, nm, ?_⟩
  unfold parse_workflow
  rw [hnf]
  simp only [Bool.false_eq_true, if_false]
  rw [← hdm, hfold2]

theorem except_bind_ok {ε α β : Type} (a : α) (f : α → Except ε β) :
    (Except.ok (ε := ε) a >>= f) = f a := rfl

/-- `retrieve_workflow_outputs` when the parse yields a single named output:
the class check followed by the session-and-node-prefixed glob. -/
theorem retrieve_single_aux (wf : Workflow) (dir : String) (listing : List String)
    (sid : String) (inputs doc : Workflow) (nm : String) (node : Node)
    (hpr : parse_workflow wf = .ok ⟨inputs, [(nm, node)], doc⟩) :
    retrieve_workflow_outputs wf dir listing sid =
      if node.class_type ∉ CPACK_OUTPUT_NODES then .error .invalidOutputType
      else
        match globDir dir listing (sid ++ node.id ++ "_*") with
        | [m] => .ok (.single m)
        | outs => .ok (.many outs) := by
  unfold retrieve_workflow_outputs
  rw [hpr, except_bind_ok]
  simp only [show (ParseResult.mk inputs [(nm, node)] doc).outputs = [(nm, node)] from rfl]
  rw [if_neg (by simp)]
  by_cases hct : node.class_type ∈ CPACK_OUTPUT_NODES
  · rw [if_neg (by simp [hct]), if_neg (by simp [hct])]
    cases hgl : globDir dir listing (sid ++ node.id ++ "_*") with
    | nil => rfl
    | cons m ms => cases ms <;> rfl
  · rw [if_pos (by simp [hct]), if_pos (by simp [hct])]

/-- **C6 (confirmed).** When the document has exactly one output-classified
node `(id₀, n₀)`, output resolution fails with the invalid-output-type error
if `n₀.class_type` is not a recognized output kind; otherwise it globs the
output directory for files whose names begin with `{session_id}{node_id}_`
(for a glob-metacharacter-free prefix the pattern `{prefix}*` matches exactly
the names with that prefix) and returns the single matching path when exactly
one file matches, and the list of matches as-is when zero or more than one
match. -/
theorem c6_single_output_resolution (wf : Workflow) (dir sid : String)
    (listing : List String) (id₀ : String) (n₀ : Node)
    (hnf : dcontains "last_node_id" wf = false)
    (hout : wf.filter (fun p => pyStartsWith p.2.class_type "CPackOutput") = [(id₀, n₀)])
    (hmeta : ∀ c ∈ (sid ++ id₀ ++ "_").data, c ≠ '*' ∧ c ≠ '?' ∧ c ≠ '[') :
    retrieve_workflow_outputs wf dir listing sid =
      if n₀.class_type ∉ CPACK_OUTPUT_NODES then .error .invalidOutputType
      else
        match (listing.filter fun f =>
            (sid ++ id₀ ++ "_").data.isPrefixOf f.data).map (posixJoin dir) with
        | [m] => .ok (.single m)
        | outs => .ok (.many outs) := by
  obtain ⟨inputs, nm, hpr⟩ := parse_single_output wf id₀ n₀ hnf hout
  rw [retrieve_single_aux wf dir listing sid inputs _ nm _ hpr]
  rw [show ({n₀ with id := id₀} : Node).class_type = n₀.class_type from rfl,
      show ({n₀ with id := id₀} : Node).id = id₀ from rfl]
  have hglob : globDir dir listing (sid ++ id₀ ++ "_*") =
      (listing.filter fun f => (sid ++ id₀ ++ "_").data.isPrefixOf f.data).map
        (posixJoin dir) := by
    unfold globDir
    congr 1
    apply List.filter_congr
    intro f _
    have hdata : (sid ++ id₀ ++ "_*").data = (sid ++ id₀ ++ "_").data ++ ['*'] := by
      simp [String.data_append, List.append_assoc]
    rw [hdata,
        globMatch_star_prefix _ (fun c hc => ⟨(hmeta c hc).1, (hmeta c hc).2.1⟩) f.data]
  rw [hglob]

/-- C6 fixture: a single recognized output node. -/
def c6Node : Node :=
  {class_type := "CPackOutputImage", title := "result",
   inputs := [("filename_prefix", .str "x")]}

/-- C6 fixture: the document holding only `c6Node` under id `7`. -/
def c6Doc : Workflow := [("7", c6Node)]

/-- Witness for C6: one produced file matches `run1_7_`, so the single path
is returned. -/
theorem c6_single_output_resolution_witness :
    retrieve_workflow_outputs c6Doc "/out" ["run1_7_x.png", "unrelated.png"] "run1_" =
      .ok (.single "/out/run1_7_x.png") := by
  rw [c6_single_output_resolution c6Doc "/out" "run1_" ["run1_7_x.png", "unrelated.png"]
      "7" c6Node rfl rfl (by decide)]
  rfl

/-! ### Node signatures: what the derived names depend on

The input/output names produced by `parse_workflow` depend only on each
node's key, class, title and ordered link slots.  Population (under the
no-link side conditions of the amended C5) preserves exactly this signature,
which yields the round-trip property. -/

/-- The ordered link slots of an `inputs` mapping: slot name plus link key. -/
def linkEntries (inputs : List (String × JVal)) : List (String × (JPrim × JPrim)) :=
  inputs.filterMap fun p => (linkKey p.2).map fun k => (p.1, k)

/-- The part of a document item the derived names depend on. -/
def nodeSig (p : String × Node) :
    String × String × String × List (String × (JPrim × JPrim)) :=
  (p.1, p.2.class_type, p.2.title, linkEntries p.2.inputs)

/-- Two documents with the same ordered node signatures. -/
def SigEq (wf wf' : Workflow) : Prop := wf.map nodeSig = wf'.map nodeSig

theorem keys_eq_of_sigEq {wf wf' : Workflow} (h : SigEq wf wf') :
    wf.map Prod.fst = wf'.map Prod.fst := by
  have h1 := congrArg (List.map (fun q => q.1)) h
  simpa [List.map_map, Function.comp, nodeSig] using h1

theorem dcontains_congr {κ α β : Type} [DecidableEq κ] (k : κ) :
    ∀ {l : List (κ × α)} {l' : List (κ × β)},
      l.map Prod.fst = l'.map Prod.fst → dcontains k l = dcontains k l' := by
  intro l
  induction l with
  | nil =>
    intro l' h
    cases l' with
    | nil => rfl
    | cons q rest' => cases h
  | cons p rest ih =>
    intro l' h
    cases l' with
    | nil => cases h
    | cons q rest' =>
      simp only [List.map_cons, List.cons_eq_cons] at h
      obtain ⟨pk, pv⟩ := p
      obtain ⟨qk, qv⟩ := q
      simp only at h
      unfold dcontains dlookup
      rw [h.1]
      by_cases hk : qk = k
      · rw [if_pos hk, if_pos hk]; rfl
      · rw [if_neg hk, if_neg hk]
        exact ih h.2

theorem mem_dinsert {κ α : Type} [DecidableEq κ] {k : κ} {v : α} :
    ∀ {l : List (κ × α)} {p : κ × α}, p ∈ dinsert k v l → p ∈ l ∨ p = (k, v) := by
  intro l
  induction l with
  | nil =>
    intro p hp
    rw [dinsert] at hp
    right
    exact List.mem_singleton.mp hp
  | cons q rest ih =>
    intro p hp
    obtain ⟨qk, qv⟩ := q
    rw [dinsert] at hp
    by_cases hq : qk = k
    · rw [if_pos hq] at hp
      rcases List.mem_cons.mp hp with h | h
      · right; exact h
      · left; exact List.mem_cons_of_mem _ h
    · rw [if_neg hq] at hp
      rcases List.mem_cons.mp hp with h | h
      · left; exact h ▸ List.mem_cons_self _ _
      · rcases ih h with h' | h'
        · left; exact List.mem_cons_of_mem _ h'
        · right; exact h'

theorem map_fst_dinsert {κ α : Type} [DecidableEq κ] (k : κ) (v : α) :
    ∀ (l : List (κ × α)),
      (dinsert k v l).map Prod.fst =
        if dcontains k l then l.map Prod.fst else l.map Prod.fst ++ [k] := by
  intro l
  induction l with
  | nil => rfl
  | cons q rest ih =>
    obtain ⟨qk, qv⟩ := q
    by_cases hq : qk = k
    · have hcont : dcontains k ((qk, qv) :: rest) = true := by
        unfold dcontains dlookup; rw [if_pos hq]; rfl
      rw [dinsert, if_pos hq, hcont, if_pos rfl]
      simp only [List.map_cons, hq]
    · have hcont : dcontains k ((qk, qv) :: rest) = dcontains k rest := by
        unfold dcontains dlookup; rw [if_neg hq]; cases rest <;> rfl
      rw [dinsert, if_neg hq, hcont]
      by_cases hc : dcontains k rest = true
      · rw [if_pos hc]
        simp only [List.map_cons, ih, if_pos hc]
      · rw [if_neg hc]
        simp only [List.map_cons, ih, if_neg hc, List.cons_append]

/-- The projection of the dependency map that naming actually reads: the
consumer slot name per link key (the stored node object is never used). -/
def dmProj (dm : List ((JPrim × JPrim) × (Node × String))) :
    List ((JPrim × JPrim) × String) :=
  dm.map fun q => (q.1, q.2.2)

theorem map_val_dinsert {κ α β : Type} [DecidableEq κ] (f : α → β) (k : κ) (v : α) :
    ∀ l : List (κ × α),
      (dinsert k v l).map (fun p => (p.1, f p.2)) =
        dinsert k (f v) (l.map fun p => (p.1, f p.2)) := by
  intro l
  induction l with
  | nil => rfl
  | cons q rest ih =>
    obtain ⟨qk, qv⟩ := q
    by_cases hq : qk = k
    · rw [dinsert, if_pos hq, List.map_cons, List.map_cons, dinsert, if_pos hq]
    · rw [dinsert, if_neg hq, List.map_cons, List.map_cons, dinsert, if_neg hq, ih]

theorem dlookup_map_val {κ α β : Type} [DecidableEq κ] (k : κ) (f : α → β) :
    ∀ l : List (κ × α),
      dlookup k (l.map fun p => (p.1, f p.2)) = (dlookup k l).map f := by
  intro l
  induction l with
  | nil => rfl
  | cons q rest ih =>
    obtain ⟨qk, qv⟩ := q
    rw [List.map_cons, dlookup, dlookup]
    by_cases hq : qk = k
    · rw [if_pos hq, if_pos hq]; rfl
    · rw [if_neg hq, if_neg hq, ih]

theorem dmProj_dinsert (k : JPrim × JPrim) (v : Node × String)
    (dm : List ((JPrim × JPrim) × (Node × String))) :
    dmProj (dinsert k v dm) = dinsert k v.2 (dmProj dm) := by
  unfold dmProj
  exact map_val_dinsert (fun x : Node × String => x.2) k v dm

theorem innerFold_linkEntries (node : Node) :
    ∀ (inputs : List (String × JVal)) (dm : List ((JPrim × JPrim) × (Node × String))),
      inputs.foldl (fun dm q =>
          match linkKey q.2 with
          | some k => dinsert k (node, q.1) dm
          | none => dm) dm =
        (linkEntries inputs).foldl (fun dm e => dinsert e.2 (node, e.1) dm) dm := by
  intro inputs
  induction inputs with
  | nil => intro dm; rfl
  | cons q rest ih =>
    intro dm
    rw [List.foldl_cons]
    cases hv : linkKey q.2 with
    | none =>
      rw [show linkEntries (q :: rest) = linkEntries rest by
        unfold linkEntries
        rw [List.filterMap_cons, hv]; rfl]
      exact ih dm
    | some k =>
      rw [show linkEntries (q :: rest) = (q.1, k) :: linkEntries rest by
        unfold linkEntries
        rw [List.filterMap_cons, hv]; rfl]
      rw [List.foldl_cons]
      exact ih (dinsert k (node, q.1) dm)

theorem dmProj_entriesFold_congr (node node' : Node) :
    ∀ (entries : List (String × (JPrim × JPrim)))
      (dm dm' : List ((JPrim × JPrim) × (Node × String))),
      dmProj dm = dmProj dm' →
      dmProj (entries.foldl (fun dm e => dinsert e.2 (node, e.1) dm) dm) =
        dmProj (entries.foldl (fun dm e => dinsert e.2 (node', e.1) dm) dm') := by
  intro entries
  induction entries with
  | nil => intro dm dm' h; exact h
  | cons e rest ih =>
    intro dm dm' h
    rw [List.foldl_cons, List.foldl_cons]
    exact ih _ _ (by rw [dmProj_dinsert, dmProj_dinsert, h])

theorem dmProj_depMap_congr {wf wf' : Workflow} (h : SigEq wf wf') :
    dmProj (depMapOf wf) = dmProj (depMapOf wf') := by
  have main : ∀ (l l' : List (String × Node))
      (dm dm' : List ((JPrim × JPrim) × (Node × String))),
      l.map nodeSig = l'.map nodeSig → dmProj dm = dmProj dm' →
      dmProj (l.foldl (fun dm p =>
          p.2.inputs.foldl (fun dm q =>
            match linkKey q.2 with
            | some k => dinsert k (p.2, q.1) dm
            | none => dm) dm) dm) =
        dmProj (l'.foldl (fun dm p =>
          p.2.inputs.foldl (fun dm q =>
            match linkKey q.2 with
            | some k => dinsert k (p.2, q.1) dm
            | none => dm) dm) dm') := by
    intro l
    induction l with
    | nil =>
      intro l' dm dm' hsig hdm
      cases l' with
      | nil => exact hdm
      | cons q rest' => cases hsig
    | cons p rest ih =>
      intro l' dm dm' hsig hdm
      cases l' with
      | nil => cases hsig
      | cons p' rest' =>
        simp only [List.map_cons, List.cons_eq_cons] at hsig
        have hle : linkEntries p.2.inputs = linkEntries p'.2.inputs := by
          have := hsig.1
          unfold nodeSig at this
          exact congrArg (fun q => q.2.2.2) this
        rw [List.foldl_cons, List.foldl_cons,
            innerFold_linkEntries p.2 p.2.inputs dm,
            innerFold_linkEntries p'.2 p'.2.inputs dm']
        refine ih rest' _ _ hsig.2 ?_
        rw [hle]
        exact dmProj_entriesFold_congr p.2 p'.2 (linkEntries p'.2.inputs) dm dm' hdm
  exact main wf wf' [] [] h rfl

theorem get_node_identifier_congr (n n' : Node)
    (dm dm' : List ((JPrim × JPrim) × (Node × String)))
    (ht : n.title = n'.title) (hid : n.id = n'.id)
    (hdm : dmProj dm = dmProj dm') :
    get_node_identifier n (some dm) = get_node_identifier n' (some dm') := by
  have hlk : (dlookup (JPrim.str n'.id, JPrim.int 0) dm).map (fun x => x.2) =
      (dlookup (JPrim.str n'.id, JPrim.int 0) dm').map (fun x => x.2) := by
    have h1 := dlookup_map_val (JPrim.str n'.id, JPrim.int 0)
      (fun x : Node × String => x.2) dm
    have h2 := dlookup_map_val (JPrim.str n'.id, JPrim.int 0)
      (fun x : Node × String => x.2) dm'
    unfold dmProj at hdm
    rw [← h1, ← h2, hdm]
  unfold get_node_identifier
  rw [ht, hid]
  by_cases hi : pyIsIdentifier n'.title = true
  · rw [if_pos hi, if_pos hi]
  · rw [if_neg hi, if_neg hi]
    cases h1 : dlookup (JPrim.str n'.id, JPrim.int 0) dm with
    | none =>
      cases h2 : dlookup (JPrim.str n'.id, JPrim.int 0) dm' with
      | none => simp only [h1, h2]
      | some q => rw [h1, h2] at hlk; cases hlk
    | some p =>
      cases h2 : dlookup (JPrim.str n'.id, JPrim.int 0) dm' with
      | none => rw [h1, h2] at hlk; cases hlk
      | some q =>
        rw [h1, h2] at hlk
        have hq : p.2 = q.2 := Option.some.inj hlk
        obtain ⟨pa, pb⟩ := p
        obtain ⟨qa, qb⟩ := q
        simp only at hq
        simp only [h1, h2, hq]

theorem get_node_identifier_none_congr (n n' : Node) (ht : n.title = n'.title) :
    get_node_identifier n none = get_node_identifier n' none := by
  unfold get_node_identifier
  rw [ht]

theorem classifyStep_input_eq (dm : List ((JPrim × JPrim) × (Node × String)))
    (acc : Workflow × Workflow) (p : String × Node)
    (hin : pyStartsWith p.2.class_type "CPackInput" = true) :
    classifyStep dm acc p =
      (dinsert
        (if dcontains (get_node_identifier {p.2 with id := p.1} (some dm)) acc.1
         then get_node_identifier {p.2 with id := p.1} (some dm) ++ "_" ++ p.1
         else get_node_identifier {p.2 with id := p.1} (some dm))
        {p.2 with id := p.1} acc.1, acc.2) := by
  simp only [classifyStep]
  rw [if_pos hin]

theorem classifyStep_output_eq (dm : List ((JPrim × JPrim) × (Node × String)))
    (acc : Workflow × Workflow) (p : String × Node)
    (hni : pyStartsWith p.2.class_type "CPackInput" = false)
    (hout : pyStartsWith p.2.class_type "CPackOutput" = true) :
    classifyStep dm acc p =
      (acc.1, dinsert
        (if dcontains (get_node_identifier {p.2 with id := p.1} none) acc.1
         then get_node_identifier {p.2 with id := p.1} none ++ "_" ++ p.1
         else get_node_identifier {p.2 with id := p.1} none)
        {p.2 with id := p.1} acc.2) := by
  simp only [classifyStep]
  rw [if_neg (by rw [hni]; exact Bool.false_ne_true), if_pos hout]

theorem classifyStep_other_eq (dm : List ((JPrim × JPrim) × (Node × String)))
    (acc : Workflow × Workflow) (p : String × Node)
    (hni : pyStartsWith p.2.class_type "CPackInput" = false)
    (hno : pyStartsWith p.2.class_type "CPackOutput" = false) :
    classifyStep dm acc p = acc := by
  simp only [classifyStep]
  rw [if_neg (by rw [hni]; exact Bool.false_ne_true),
      if_neg (by rw [hno]; exact Bool.false_ne_true)]

theorem classifyStep_keys_congr (dm dm' : List ((JPrim × JPrim) × (Node × String)))
    (acc acc' : Workflow × Workflow) (p p' : String × Node)
    (hsig : nodeSig p = nodeSig p')
    (hdm : dmProj dm = dmProj dm')
    (h1 : acc.1.map Prod.fst = acc'.1.map Prod.fst)
    (h2 : acc.2.map Prod.fst = acc'.2.map Prod.fst) :
    (classifyStep dm acc p).1.map Prod.fst =
        (classifyStep dm' acc' p').1.map Prod.fst ∧
      (classifyStep dm acc p).2.map Prod.fst =
        (classifyStep dm' acc' p').2.map Prod.fst := by
  have hk : p.1 = p'.1 := congrArg (fun q => q.1) hsig
  have hct : p.2.class_type = p'.2.class_type := congrArg (fun q => q.2.1) hsig
  have htt : p.2.title = p'.2.title := congrArg (fun q => q.2.2.1) hsig
  by_cases hin : pyStartsWith p.2.class_type "CPackInput" = true
  · have hname : get_node_identifier {p.2 with id := p.1} (some dm) =
        get_node_identifier {p'.2 with id := p'.1} (some dm') :=
      get_node_identifier_congr _ _ dm dm' htt hk hdm
    have hsuf :
        (if dcontains (get_node_identifier {p.2 with id := p.1} (some dm)) acc.1
         then get_node_identifier {p.2 with id := p.1} (some dm) ++ "_" ++ p.1
         else get_node_identifier {p.2 with id := p.1} (some dm)) =
        (if dcontains (get_node_identifier {p'.2 with id := p'.1} (some dm')) acc'.1
         then get_node_identifier {p'.2 with id := p'.1} (some dm') ++ "_" ++ p'.1
         else get_node_identifier {p'.2 with id := p'.1} (some dm')) := by
      rw [hname, hk, dcontains_congr _ h1]
    rw [classifyStep_input_eq dm acc p hin,
        classifyStep_input_eq dm' acc' p' (hct ▸ hin)]
    refine ⟨?_, h2⟩
    rw [map_fst_dinsert, map_fst_dinsert, hsuf, dcontains_congr _ h1, h1]
  · have hin' : pyStartsWith p.2.class_type "CPackInput" = false :=
      Bool.of_not_eq_true hin
    by_cases hout : pyStartsWith p.2.class_type "CPackOutput" = true
    · have hname : get_node_identifier {p.2 with id := p.1} none =
          get_node_identifier {p'.2 with id := p'.1} none :=
        get_node_identifier_none_congr _ _ htt
      have hsuf :
          (if dcontains (get_node_identifier {p.2 with id := p.1} none) acc.1
           then get_node_identifier {p.2 with id := p.1} none ++ "_" ++ p.1
           else get_node_identifier {p.2 with id := p.1} none) =
          (if dcontains (get_node_identifier {p'.2 with id := p'.1} none) acc'.1
           then get_node_identifier {p'.2 with id := p'.1} none ++ "_" ++ p'.1
           else get_node_identifier {p'.2 with id := p'.1} none) := by
        rw [hname, hk, dcontains_congr _ h1]
      rw [classifyStep_output_eq dm acc p hin' hout,
          classifyStep_output_eq dm' acc' p' (hct ▸ hin') (hct ▸ hout)]
      refine ⟨h1, ?_⟩
      rw [map_fst_dinsert, map_fst_dinsert, hsuf, dcontains_congr _ h2, h2]
    · have hout' : pyStartsWith p.2.class_type "CPackOutput" = false :=
        Bool.of_not_eq_true hout
      rw [classifyStep_other_eq dm acc p hin' hout',
          classifyStep_other_eq dm' acc' p' (hct ▸ hin') (hct ▸ hout')]
      exact ⟨h1, h2⟩

theorem classify_fold_keys_congr :
    ∀ (l l' : List (String × Node))
      (dm dm' : List ((JPrim × JPrim) × (Node × String)))
      (acc acc' : Workflow × Workflow),
      l.map nodeSig = l'.map nodeSig →
      dmProj dm = dmProj dm' →
      acc.1.map Prod.fst = acc'.1.map Prod.fst →
      acc.2.map Prod.fst = acc'.2.map Prod.fst →
      (l.foldl (classifyStep dm) acc).1.map Prod.fst =
          (l'.foldl (classifyStep dm') acc').1.map Prod.fst ∧
        (l.foldl (classifyStep dm) acc).2.map Prod.fst =
          (l'.foldl (classifyStep dm') acc').2.map Prod.fst := by
  intro l
  induction l with
  | nil =>
    intro l' dm dm' acc acc' hsig hdm h1 h2
    cases l' with
    | nil => exact ⟨h1, h2⟩
    | cons q rest' => cases hsig
  | cons p rest ih =>
    intro l' dm dm' acc acc' hsig hdm h1 h2
    cases l' with
    | nil => cases hsig
    | cons p' rest' =>
      simp only [List.map_cons, List.cons_eq_cons] at hsig
      rw [List.foldl_cons, List.foldl_cons]
      obtain ⟨hs1, hs2⟩ :=
        classifyStep_keys_congr dm dm' acc acc' p p' hsig.1 hdm h1 h2
      exact ih rest' dm dm' _ _ hsig.2 hdm hs1 hs2

/-- The in-place `id` annotation performed by parsing does not change a
document's node signatures. -/
theorem sigEq_annot (wf : Workflow) :
    SigEq wf (wf.map fun p => (p.1, {p.2 with id := p.1})) := by
  unfold SigEq
  induction wf with
  | nil => rfl
  | cons p rest ih =>
    simp only [List.map_cons]
    rw [show nodeSig (p.1, {p.2 with id := p.1}) = nodeSig p from rfl, ← ih]

theorem sigEq_trans {a b c : Workflow} (h1 : SigEq a b) (h2 : SigEq b c) :
    SigEq a c := h1.trans h2

theorem sigEq_symm {a b : Workflow} (h : SigEq a b) : SigEq b a := h.symm

/-- Documents with equal node signatures parse to the same ordered input
name list and the same ordered output name list (or both fail). -/
theorem parse_names_congr {wf wf' : Workflow} (h : SigEq wf wf') :
    ((parse_workflow wf).map fun pr => pr.inputs.map Prod.fst) =
      ((parse_workflow wf').map fun pr => pr.inputs.map Prod.fst) ∧
    ((parse_workflow wf).map fun pr => pr.outputs.map Prod.fst) =
      ((parse_workflow wf').map fun pr => pr.outputs.map Prod.fst) := by
  have hk := keys_eq_of_sigEq h
  have hcont : dcontains "last_node_id" wf = dcontains "last_node_id" wf' :=
    dcontains_congr _ hk
  unfold parse_workflow
  by_cases hc : dcontains "last_node_id" wf = true
  · rw [if_pos hc, if_pos (hcont ▸ hc)]
    exact ⟨rfl, rfl⟩
  · rw [if_neg hc, if_neg (fun hh => hc (hcont ▸ hh))]
    obtain ⟨hi, ho⟩ := classify_fold_keys_congr wf wf' (depMapOf wf) (depMapOf wf')
      ([], []) ([], []) h (dmProj_depMap_congr h) rfl rfl
    constructor
    · show Except.ok ((wf.foldl (classifyStep (depMapOf wf)) ([], [])).1.map Prod.fst) =
        Except.ok ((wf'.foldl (classifyStep (depMapOf wf')) ([], [])).1.map Prod.fst)
      exact congrArg Except.ok hi
    · show Except.ok ((wf.foldl (classifyStep (depMapOf wf)) ([], [])).2.map Prod.fst) =
        Except.ok ((wf'.foldl (classifyStep (depMapOf wf')) ([], [])).2.map Prod.fst)
      exact congrArg Except.ok ho

/-! ### Population preserves node signatures (under the no-link conditions) -/

/-- The node's first input slot (the one population overwrites) does not
hold a link reference. -/
def firstSlotSafe (n : Node) : Bool :=
  match n.inputs with
  | [] => true
  | (_, v) :: _ => !isLink v

/-- The node's `filename_prefix` slot, if any, does not hold a link. -/
def fpSlotSafe (n : Node) : Bool :=
  match dlookup "filename_prefix" n.inputs with
  | some v => !isLink v
  | none => true

/-- The side condition of the amended C5: slots that population overwrites
do not hold link references. -/
def NodeOk (n : Node) : Prop :=
  (pyStartsWith n.class_type "CPackInput" = true → firstSlotSafe n = true) ∧
  (n.class_type ∈ CPACK_OUTPUT_NODES → fpSlotSafe n = true)

instance (n : Node) : Decidable (NodeOk n) := by
  unfold NodeOk
  infer_instance

theorem linkKey_eq_none {v : JVal} (h : isLink v = false) : linkKey v = none := by
  cases v with
  | prim p => rfl
  | list vs =>
    cases vs with
    | nil => rfl
    | cons a rest =>
      cases rest with
      | nil => rfl
      | cons b rest2 =>
        cases rest2 with
        | nil => exact absurd h (by simp [isLink])
        | cons c rest3 => rfl

theorem linkEntries_cons_eq {k : String} {v v' : JVal} (rest : List (String × JVal))
    (hv : isLink v = false) (hv' : isLink v' = false) :
    linkEntries ((k, v') :: rest) = linkEntries ((k, v) :: rest) := by
  unfold linkEntries
  rw [List.filterMap_cons, List.filterMap_cons, linkKey_eq_none hv, linkKey_eq_none hv']

theorem linkEntries_dinsert (k : String) (v : JVal) (hv : isLink v = false) :
    ∀ l : List (String × JVal), (∀ w, dlookup k l = some w → isLink w = false) →
      linkEntries (dinsert k v l) = linkEntries l := by
  intro l
  induction l with
  | nil =>
    intro _
    show linkEntries [(k, v)] = linkEntries []
    unfold linkEntries
    rw [List.filterMap_cons, linkKey_eq_none hv]
    rfl
  | cons q rest ih =>
    intro hsafe
    obtain ⟨qk, qv⟩ := q
    by_cases hq : qk = k
    · have hqv : isLink qv = false := by
        refine hsafe qv ?_
        rw [dlookup, if_pos hq]
      rw [dinsert, if_pos hq]
      subst hq
      exact linkEntries_cons_eq rest hqv hv
    · rw [dinsert, if_neg hq]
      unfold linkEntries
      rw [List.filterMap_cons, List.filterMap_cons]
      have hrest : ∀ w, dlookup k rest = some w → isLink w = false := by
        intro w hw
        refine hsafe w ?_
        rw [dlookup, if_neg hq]
        exact hw
      have := ih hrest
      unfold linkEntries at this
      rw [this]

/-- Replacing the node stored at an existing key with one of equal
signature fields leaves the document's signature list unchanged. -/
theorem map_sig_dinsert (j : String) (n' : Node) :
    ∀ (w : Workflow) (n : Node), dlookup j w = some n →
      n'.class_type = n.class_type → n'.title = n.title →
      linkEntries n'.inputs = linkEntries n.inputs →
      (dinsert j n' w).map nodeSig = w.map nodeSig := by
  intro w
  induction w with
  | nil => intro n h; cases h
  | cons q rest ih =>
    intro n h hc ht hl
    obtain ⟨qk, qn⟩ := q
    by_cases hq : qk = j
    · rw [dlookup, if_pos hq] at h
      have hn : qn = n := Option.some.inj h
      rw [dinsert, if_pos hq, List.map_cons, List.map_cons]
      have : nodeSig (j, n') = nodeSig (qk, qn) := by
        unfold nodeSig
        rw [hn, hq, hc, ht, hl]
      rw [this]
    · rw [dlookup, if_neg hq] at h
      rw [dinsert, if_neg hq, List.map_cons, List.map_cons, ih n h hc ht hl]

/-- Along signature-equal documents, lookups agree on the signature
fields. -/
theorem dlookup_sigEq :
    ∀ {doc w : Workflow}, SigEq doc w →
      ∀ j n, dlookup j doc = some n →
        ∃ n', dlookup j w = some n' ∧ n'.class_type = n.class_type ∧
          n'.title = n.title ∧ linkEntries n'.inputs = linkEntries n.inputs := by
  intro doc
  induction doc with
  | nil => intro w _ j n h; cases h
  | cons p rest ih =>
    intro w hsig j n h
    cases w with
    | nil => cases hsig
    | cons q rest' =>
      unfold SigEq at hsig
      simp only [List.map_cons, List.cons_eq_cons] at hsig
      obtain ⟨pk, pn⟩ := p
      obtain ⟨qk, qn⟩ := q
      have hk : pk = qk := congrArg (fun z => z.1) hsig.1
      have hc : pn.class_type = qn.class_type := congrArg (fun z => z.2.1) hsig.1
      have ht : pn.title = qn.title := congrArg (fun z => z.2.2.1) hsig.1
      have hl : linkEntries pn.inputs = linkEntries qn.inputs :=
        congrArg (fun z => z.2.2.2) hsig.1
      by_cases hj : pk = j
      · rw [dlookup, if_pos hj] at h
        have hn : pn = n := Option.some.inj h
        refine ⟨qn, ?_, ?_, ?_, ?_⟩
        · rw [dlookup, if_pos (hk ▸ hj)]
        · rw [← hn, hc]
        · rw [← hn, ht]
        · rw [← hn, hl]
      · rw [dlookup, if_neg hj] at h
        obtain ⟨n', hn', h1, h2, h3⟩ := ih hsig.2 j n h
        refine ⟨n', ?_, h1, h2, h3⟩
        rw [dlookup, if_neg (hk ▸ hj)]
        exact hn'

theorem mem_out_starts {ct : String} (h : ct ∈ CPACK_OUTPUT_NODES) :
    pyStartsWith ct "CPackOutput" = true := by
  rcases (by simpa [CPACK_OUTPUT_NODES] using h : ct = "CPackOutputFile" ∨
    ct = "CPackOutputImage") with h1 | h1 <;> subst h1 <;> decide

theorem input_not_in_out {ct : String}
    (h : pyStartsWith ct "CPackInput" = true) : ct ∉ CPACK_OUTPUT_NODES := by
  intro hmem
  have := output_prefix_not_input (mem_out_starts hmem)
  rw [h] at this
  cases this

theorem except_bind_error {ε α β : Type} (e : ε) (f : α → Except ε β) :
    (Except.error (α := α) e >>= f) = .error e := rfl

/-- Structure of a successful `parse_workflow`. -/
theorem parse_ok_elim {wf : Workflow} {pr : ParseResult}
    (h : parse_workflow wf = .ok pr) :
    dcontains "last_node_id" wf = false ∧
      pr = ⟨(wf.foldl (classifyStep (depMapOf wf)) ([], [])).1,
            (wf.foldl (classifyStep (depMapOf wf)) ([], [])).2,
            wf.map fun p => (p.1, {p.2 with id := p.1})⟩ := by
  unfold parse_workflow at h
  by_cases hc : dcontains "last_node_id" wf = true
  · rw [if_pos hc] at h; cases h
  · rw [if_neg hc] at h
    exact ⟨Bool.of_not_eq_true hc, (Except.ok.inj h).symm⟩

/-- Structure of a successful `applyInputValue`. -/
theorem applyInputValue_ok_elim {ispec w : Workflow} {kv : String × JVal}
    {w1 : Workflow} (h : applyInputValue ispec w kv = .ok w1) :
    ∃ node cur k₀ v₀ rest0, dlookup kv.1 ispec = some node ∧
      pyStartsWith node.class_type "CPackInput" = true ∧
      dlookup node.id w = some cur ∧
      cur.inputs = (k₀, v₀) :: rest0 ∧
      w1 = dinsert node.id {cur with inputs := (k₀, kv.2) :: rest0} w := by
  unfold applyInputValue at h
  split at h
  next heq => cases h
  next node heq =>
    split at h
    next => cases h
    next hcls =>
      split at h
      next => cases h
      next cur hw =>
        cases hinp : cur.inputs with
        | nil =>
          rw [show set_node_value cur kv.2 = .error .stopIteration by
                unfold set_node_value; rw [hinp],
              except_bind_error] at h
          cases h
        | cons q rest0 =>
          obtain ⟨k₀, v₀⟩ := q
          rw [show set_node_value cur kv.2 =
                .ok {cur with inputs := (k₀, kv.2) :: rest0} by
                unfold set_node_value; rw [hinp],
              except_bind_ok] at h
          exact ⟨node, cur, k₀, v₀, rest0, heq, not_not.mp hcls, hw, hinp,
            (Except.ok.inj h).symm⟩

/-- The node as left by the filename-prefix assignment of the populate
loop. -/
def fpUpdated (dir sid j : String) (cur : Node) : Node :=
  let pfx : JVal := .str (posixJoin dir (sid ++ j ++ "_"))
  {cur with inputs := dinsert "filename_prefix" pfx cur.inputs}

/-- Structure of a successful `applyOutputPrefix`. -/
theorem applyOutputPrefix_elim {dir sid : String} {w : Workflow}
    {p : String × Node} {w1 : Workflow}
    (h : applyOutputPrefix dir sid w p = .ok w1) :
    (p.2.class_type ∉ CPACK_OUTPUT_NODES ∧ w1 = w) ∨
      (p.2.class_type ∈ CPACK_OUTPUT_NODES ∧ ∃ cur, dlookup p.2.id w = some cur ∧
        w1 = dinsert p.2.id (fpUpdated dir sid p.2.id cur) w) := by
  unfold applyOutputPrefix at h
  split at h
  next hct =>
    split at h
    next => cases h
    next cur hw =>
      exact Or.inr ⟨hct, cur, hw, (Except.ok.inj h).symm⟩
  next hct =>
    exact Or.inl ⟨hct, (Except.ok.inj h).symm⟩

theorem dlookup_of_mem_nodup {κ α : Type} [DecidableEq κ] :
    ∀ {l : List (κ × α)} {k : κ} {v : α},
      (l.map Prod.fst).Nodup → (k, v) ∈ l → dlookup k l = some v := by
  intro l
  induction l with
  | nil => intro k v _ hm; cases hm
  | cons q rest ih =>
    intro k v hnd hm
    obtain ⟨qk, qv⟩ := q
    simp only [List.map_cons, List.nodup_cons] at hnd
    rcases List.mem_cons.mp hm with hh | hh
    · obtain ⟨h1, h2⟩ := Prod.mk.inj hh.symm
      rw [dlookup, if_pos h1, h2]
    · have hk : qk ≠ k := by
        intro hqk
        exact hnd.1 (hqk ▸ (List.mem_map.mpr ⟨(k, v), hh, rfl⟩))
      rw [dlookup, if_neg hk]
      exact ih hnd.2 hh

theorem dlookup_annot {wf : Workflow} {j : String} {n : Node}
    (hj : dlookup j wf = some n) :
    dlookup j (wf.map fun p => (p.1, {p.2 with id := p.1})) =
      some {n with id := j} := by
  induction wf with
  | nil => cases hj
  | cons q rest ih =>
    obtain ⟨qk, qn⟩ := q
    by_cases hq : qk = j
    · rw [dlookup, if_pos hq] at hj
      have := Option.some.inj hj
      rw [List.map_cons, dlookup, if_pos hq, this, hq]
    · rw [dlookup, if_neg hq] at hj
      rw [List.map_cons, dlookup, if_neg hq]
      exact ih hj

/-- The nodes collected by the classification fold really are annotated
document nodes of the right class. -/
theorem classify_fold_mem (dm : List ((JPrim × JPrim) × (Node × String)))
    (wf : Workflow) (hnd : (wf.map Prod.fst).Nodup) :
    ∀ (l : List (String × Node)) (acc : Workflow × Workflow),
      (∀ p ∈ l, p ∈ wf) →
      (∀ q ∈ acc.1, pyStartsWith q.2.class_type "CPackInput" = true ∧
        dlookup q.2.id (wf.map fun p => (p.1, {p.2 with id := p.1})) = some q.2) →
      (∀ q ∈ acc.2, pyStartsWith q.2.class_type "CPackOutput" = true ∧
        dlookup q.2.id (wf.map fun p => (p.1, {p.2 with id := p.1})) = some q.2) →
      (∀ q ∈ (l.foldl (classifyStep dm) acc).1,
        pyStartsWith q.2.class_type "CPackInput" = true ∧
        dlookup q.2.id (wf.map fun p => (p.1, {p.2 with id := p.1})) = some q.2) ∧
      (∀ q ∈ (l.foldl (classifyStep dm) acc).2,
        pyStartsWith q.2.class_type "CPackOutput" = true ∧
        dlookup q.2.id (wf.map fun p => (p.1, {p.2 with id := p.1})) = some q.2) := by
  intro l
  induction l with
  | nil => intro acc _ h1 h2; exact ⟨h1, h2⟩
  | cons p rest ih =>
    intro acc hmem h1 h2
    rw [List.foldl_cons]
    have hpw : p ∈ wf := hmem p (List.mem_cons_self p rest)
    have hpl : dlookup p.1 wf = some p.2 := by
      obtain ⟨pk, pn⟩ := p
      exact dlookup_of_mem_nodup hnd hpw
    have hpan : dlookup p.1 (wf.map fun q => (q.1, {q.2 with id := q.1})) =
        some {p.2 with id := p.1} := dlookup_annot hpl
    refine ih (classifyStep dm acc p) (fun q hq => hmem q (List.mem_cons_of_mem p hq))
      ?_ ?_
    · intro q hq
      by_cases hin : pyStartsWith p.2.class_type "CPackInput" = true
      · rw [classifyStep_input_eq dm acc p hin] at hq
        rcases mem_dinsert hq with hh | hh
        · exact h1 q hh
        · rw [hh]
          exact ⟨hin, hpan⟩
      · have hin' : pyStartsWith p.2.class_type "CPackInput" = false :=
          Bool.of_not_eq_true hin
        by_cases hout : pyStartsWith p.2.class_type "CPackOutput" = true
        · rw [classifyStep_output_eq dm acc p hin' hout] at hq
          exact h1 q hq
        · rw [classifyStep_other_eq dm acc p hin'
            (Bool.of_not_eq_true hout)] at hq
          exact h1 q hq
    · intro q hq
      by_cases hin : pyStartsWith p.2.class_type "CPackInput" = true
      · rw [classifyStep_input_eq dm acc p hin] at hq
        exact h2 q hq
      · have hin' : pyStartsWith p.2.class_type "CPackInput" = false :=
          Bool.of_not_eq_true hin
        by_cases hout : pyStartsWith p.2.class_type "CPackOutput" = true
        · rw [classifyStep_output_eq dm acc p hin' hout] at hq
          rcases mem_dinsert hq with hh | hh
          · exact h2 q hh
          · rw [hh]
            exact ⟨hout, hpan⟩
        · rw [classifyStep_other_eq dm acc p hin'
            (Bool.of_not_eq_true hout)] at hq
          exact h2 q hq

/-- The parse invariant: every parsed input is an annotated input-classified
document node, every parsed output an annotated output-classified one. -/
theorem parse_spec_mem {wf : Workflow} {pr : ParseResult}
    (hnd : (wf.map Prod.fst).Nodup) (hpr : parse_workflow wf = .ok pr) :
    (∀ q ∈ pr.inputs, pyStartsWith q.2.class_type "CPackInput" = true ∧
      dlookup q.2.id pr.doc = some q.2) ∧
    (∀ q ∈ pr.outputs, pyStartsWith q.2.class_type "CPackOutput" = true ∧
      dlookup q.2.id pr.doc = some q.2) := by
  obtain ⟨hnf, hpr'⟩ := parse_ok_elim hpr
  subst hpr'
  exact classify_fold_mem (depMapOf wf) wf hnd wf ([], []) (fun p hp => hp)
    (fun q hq => absurd hq (List.not_mem_nil q))
    (fun q hq => absurd hq (List.not_mem_nil q))

theorem mem_of_dlookup {κ α : Type} [DecidableEq κ] :
    ∀ {l : List (κ × α)} {k : κ} {v : α}, dlookup k l = some v → (k, v) ∈ l := by
  intro l
  induction l with
  | nil => intro k v h; cases h
  | cons q rest ih =>
    intro k v h
    obtain ⟨qk, qv⟩ := q
    by_cases hq : qk = k
    · rw [dlookup, if_pos hq] at h
      have := Option.some.inj h
      subst hq
      rw [this]
      exact List.mem_cons_self _ _
    · rw [dlookup, if_neg hq] at h
      exact List.mem_cons_of_mem _ (ih h)

/-- The value-injection loop of populate preserves node signatures and the
no-link slot conditions, provided no injected value is a link. -/
theorem values_fold_sig (ispec doc : Workflow)
    (hspec : ∀ q ∈ ispec, pyStartsWith q.2.class_type "CPackInput" = true ∧
      dlookup q.2.id doc = some q.2) :
    ∀ (values : List (String × JVal)) (w w2 : Workflow),
      values.foldlM (applyInputValue ispec) w = .ok w2 →
      (∀ kv ∈ values, isLink kv.2 = false) →
      SigEq doc w → (∀ p ∈ w, NodeOk p.2) →
      SigEq doc w2 ∧ (∀ p ∈ w2, NodeOk p.2) := by
  intro values
  induction values with
  | nil =>
    intro w w2 hfold _ hsig hok
    have hww : w = w2 := Except.ok.inj hfold
    exact hww ▸ ⟨hsig, hok⟩
  | cons kv rest ih =>
    intro w w2 hfold hlinks hsig hok
    rw [List.foldlM_cons] at hfold
    cases h1 : applyInputValue ispec w kv with
    | error e => rw [h1, except_bind_error] at hfold; cases hfold
    | ok w1 =>
      rw [h1, except_bind_ok] at hfold
      obtain ⟨node, cur, k₀, v₀, rest0, hnd, hcls, hw, hinp, hw1⟩ :=
        applyInputValue_ok_elim h1
      have hdoc := (hspec (kv.1, node) (mem_of_dlookup hnd)).2
      obtain ⟨cur', hcur', hc, ht, hl⟩ := dlookup_sigEq hsig node.id node hdoc
      have hcc : cur' = cur := by
        rw [hcur'] at hw
        exact Option.some.inj hw
      subst hcc
      have hcin : pyStartsWith cur'.class_type "CPackInput" = true := by
        rw [hc]; exact hcls
      have hv₀ : isLink v₀ = false := by
        have hfss := (hok _ (mem_of_dlookup hw)).1 hcin
        unfold firstSlotSafe at hfss
        rw [hinp] at hfss
        simpa using hfss
      have hkv : isLink kv.2 = false := hlinks kv (List.mem_cons_self kv rest)
      have hle : linkEntries ({cur' with inputs := (k₀, kv.2) :: rest0} : Node).inputs =
          linkEntries cur'.inputs := by
        show linkEntries ((k₀, kv.2) :: rest0) = linkEntries cur'.inputs
        rw [hinp]
        exact linkEntries_cons_eq rest0 hv₀ hkv
      have hsig1 : SigEq doc w1 := by
        rw [hw1]
        exact hsig.trans
          (map_sig_dinsert node.id {cur' with inputs := (k₀, kv.2) :: rest0}
            w cur' hw rfl rfl hle).symm
      have hok1 : ∀ p ∈ w1, NodeOk p.2 := by
        intro p hp
        rw [hw1] at hp
        rcases mem_dinsert hp with hh | hh
        · exact hok p hh
        · rw [hh]
          refine ⟨fun _ => ?_, fun hm => ?_⟩
          · show firstSlotSafe {cur' with inputs := (k₀, kv.2) :: rest0} = true
            unfold firstSlotSafe
            simp [hkv]
          · exact absurd hm (input_not_in_out hcin)
      exact ih w1 w2 hfold (fun q hq => hlinks q (List.mem_cons_of_mem kv hq)) hsig1 hok1

/-- The filename-prefix loop of populate preserves node signatures and the
no-link slot conditions. -/
theorem outputs_fold_sig (doc : Workflow) (dir sid : String) :
    ∀ (os : List (String × Node)) (w w2 : Workflow),
      os.foldlM (applyOutputPrefix dir sid) w = .ok w2 →
      (∀ q ∈ os, dlookup q.2.id doc = some q.2) →
      SigEq doc w → (∀ p ∈ w, NodeOk p.2) →
      SigEq doc w2 ∧ (∀ p ∈ w2, NodeOk p.2) := by
  intro os
  induction os with
  | nil =>
    intro w w2 hfold _ hsig hok
    have hww : w = w2 := Except.ok.inj hfold
    exact hww ▸ ⟨hsig, hok⟩
  | cons p rest ih =>
    intro w w2 hfold hos hsig hok
    rw [List.foldlM_cons] at hfold
    cases h1 : applyOutputPrefix dir sid w p with
    | error e => rw [h1, except_bind_error] at hfold; cases hfold
    | ok w1 =>
      rw [h1, except_bind_ok] at hfold
      have hrest : ∀ q ∈ rest, dlookup q.2.id doc = some q.2 :=
        fun q hq => hos q (List.mem_cons_of_mem p hq)
      rcases applyOutputPrefix_elim h1 with ⟨_, hww⟩ | ⟨hct, cur, hw, hw1⟩
      · subst hww
        exact ih w1 w2 hfold hrest hsig hok
      · have hdoc := hos p (List.mem_cons_self p rest)
        obtain ⟨cur', hcur', hc, ht, hl⟩ := dlookup_sigEq hsig p.2.id p.2 hdoc
        have hcc : cur' = cur := by
          rw [hcur'] at hw
          exact Option.some.inj hw
        subst hcc
        have hcur_out : cur'.class_type ∈ CPACK_OUTPUT_NODES := by
          rw [hc]; exact hct
        have hfps := (hok _ (mem_of_dlookup hw)).2 hcur_out
        have hsafe : ∀ v', dlookup "filename_prefix" cur'.inputs = some v' →
            isLink v' = false := by
          intro v' hv'
          unfold fpSlotSafe at hfps
          rw [hv'] at hfps
          simpa using hfps
        have hinputs : (fpUpdated dir sid p.2.id cur').inputs =
            dinsert "filename_prefix"
              (JVal.str (posixJoin dir (sid ++ p.2.id ++ "_"))) cur'.inputs := rfl
        have hle : linkEntries (fpUpdated dir sid p.2.id cur').inputs =
            linkEntries cur'.inputs := by
          rw [hinputs]
          exact linkEntries_dinsert "filename_prefix"
            (JVal.str (posixJoin dir (sid ++ p.2.id ++ "_"))) rfl cur'.inputs hsafe
        have hsig1 : SigEq doc w1 := by
          rw [hw1]
          exact hsig.trans
            (map_sig_dinsert p.2.id (fpUpdated dir sid p.2.id cur')
              w cur' hw rfl rfl hle).symm
        have hok1 : ∀ q ∈ w1, NodeOk q.2 := by
          intro q hq
          rw [hw1] at hq
          rcases mem_dinsert hq with hh | hh
          · exact hok q hh
          · rw [hh]
            refine ⟨fun habs => ?_, fun _ => ?_⟩
            · exact absurd habs (by
                rw [show (fpUpdated dir sid p.2.id cur').class_type =
                      cur'.class_type from rfl,
                    output_prefix_not_input (mem_out_starts hcur_out)]
                exact Bool.false_ne_true)
            · show fpSlotSafe (fpUpdated dir sid p.2.id cur') = true
              unfold fpSlotSafe
              rw [hinputs, dlookup_dinsert]
              simp [isLink, JVal.str]
        exact ih w1 w2 hfold hrest hsig1 hok1

/-- Structure of a successful `populate_workflow`. -/
theorem populate_ok_elim {wf : Workflow} {dir sid : String}
    {values : List (String × JVal)} {wf2 : Workflow}
    (h : populate_workflow wf dir sid values = .ok wf2) :
    ∃ pr wf1, parse_workflow wf = .ok pr ∧
      values.foldlM (applyInputValue pr.inputs) pr.doc = .ok wf1 ∧
      pr.outputs.foldlM (applyOutputPrefix dir sid) wf1 = .ok wf2 := by
  unfold populate_workflow at h
  cases hp : parse_workflow wf with
  | error e => rw [hp, except_bind_error] at h; cases h
  | ok pr =>
    rw [hp, except_bind_ok] at h
    cases hf : values.foldlM (applyInputValue pr.inputs) pr.doc with
    | error e => rw [hf, except_bind_error] at h; cases h
    | ok wf1 =>
      rw [hf, except_bind_ok] at h
      exact ⟨pr, wf1, rfl, hf, h⟩

/-- **C5 (amended).** For a document with distinct node ids in which no slot
that population overwrites holds a link reference — no input-classified
node's first input slot is a two-element link, no recognized output node's
`filename_prefix` slot is a link — and no injected value is a two-element
list, parsing, populating and re-parsing the populated document yields the
same ordered input name list and the same ordered output name list as
parsing the original document: population never renames any node. -/
theorem c5_amended_roundtrip (wf : Workflow) (dir sid : String)
    (values : List (String × JVal)) (wf2 : Workflow)
    (hnd : (wf.map Prod.fst).Nodup)
    (hpop : populate_workflow wf dir sid values = .ok wf2)
    (hvals : ∀ kv ∈ values, isLink kv.2 = false)
    (hnodes : ∀ p ∈ wf, NodeOk p.2) :
    ((parse_workflow wf2).map fun pr => pr.inputs.map Prod.fst) =
      ((parse_workflow wf).map fun pr => pr.inputs.map Prod.fst) ∧
    ((parse_workflow wf2).map fun pr => pr.outputs.map Prod.fst) =
      ((parse_workflow wf).map fun pr => pr.outputs.map Prod.fst) := by
  obtain ⟨pr, wf1, hp, hf1, hf2⟩ := populate_ok_elim hpop
  obtain ⟨hspecI, hspecO⟩ := parse_spec_mem hnd hp
  have hdoc_annot : pr.doc = wf.map fun p => (p.1, {p.2 with id := p.1}) := by
    obtain ⟨_, hpr'⟩ := parse_ok_elim hp
    rw [hpr']
  have hok0 : ∀ p ∈ pr.doc, NodeOk p.2 := by
    intro p hp'
    rw [hdoc_annot] at hp'
    obtain ⟨p₀, hp₀, rfl⟩ := List.mem_map.mp hp'
    exact hnodes p₀ hp₀
  have hstep1 := values_fold_sig pr.inputs pr.doc hspecI values pr.doc wf1 hf1
    hvals rfl hok0
  have hstep2 := outputs_fold_sig pr.doc dir sid pr.outputs wf1 wf2 hf2
    (fun q hq => (hspecO q hq).2) hstep1.1 hstep1.2
  have hsig : SigEq wf wf2 := by
    refine sigEq_trans ?_ hstep2.1
    rw [hdoc_annot]
    exact sigEq_annot wf
  exact parse_names_congr (sigEq_symm hsig)

/-- C5 witness fixture: one input node and one recognized output node. -/
def c5wDoc : Workflow :=
  [("1", {class_type := "CPackInputValue", title := "width",
          inputs := [("value", .int 5)]}),
   ("7", {class_type := "CPackOutputImage", title := "img out",
          inputs := [("filename_prefix", .str "x")]})]

/-- C5 witness fixture: `c5wDoc` populated with `width := 9`. -/
def c5wDoc2 : Workflow :=
  [("1", {class_type := "CPackInputValue", title := "width",
          inputs := [("value", .int 9)], id := "1"}),
   ("7", {class_type := "CPackOutputImage", title := "img out",
          inputs := [("filename_prefix", .str "/o/s7_")], id := "7"})]

/-- Witness for the amended C5 at a concrete document. -/
theorem c5_amended_roundtrip_witness :
    ((parse_workflow c5wDoc2).map fun pr => pr.inputs.map Prod.fst) =
      ((parse_workflow c5wDoc).map fun pr => pr.inputs.map Prod.fst) ∧
    ((parse_workflow c5wDoc2).map fun pr => pr.outputs.map Prod.fst) =
      ((parse_workflow c5wDoc).map fun pr => pr.outputs.map Prod.fst) :=
  c5_amended_roundtrip c5wDoc "/o" "s" [("width", .int 9)] c5wDoc2
    (by decide) rfl (by decide) (by decide)

/-! ### The frame property of population (C10) -/

/-- Key `j` holds a node targeted by one of the supplied values. -/
def Targeted (ispec : Workflow) (values : List (String × JVal)) (j : String) : Prop :=
  ∃ kv ∈ values, ∃ nd, dlookup kv.1 ispec = some nd ∧ nd.id = j

/-- Key `j` holds a parsed output node of a recognized output kind. -/
def OutRec (ospec : Workflow) (j : String) : Prop :=
  ∃ q ∈ ospec, q.2.id = j ∧ q.2.class_type ∈ CPACK_OUTPUT_NODES

theorem targeted_cons_of_rest {ispec : Workflow} {kv : String × JVal}
    {rest : List (String × JVal)} {j : String}
    (h : Targeted ispec rest j) : Targeted ispec (kv :: rest) j := by
  obtain ⟨kv', hm, nd, h1, h2⟩ := h
  exact ⟨kv', List.mem_cons_of_mem kv hm, nd, h1, h2⟩

theorem outRec_cons_of_rest {p : String × Node} {rest : List (String × Node)}
    {j : String} (h : OutRec rest j) : OutRec (p :: rest) j := by
  obtain ⟨q, hm, h1, h2⟩ := h
  exact ⟨q, List.mem_cons_of_mem p hm, h1, h2⟩

/-- The value-injection loop changes, at most, the value in the first input
slot of targeted nodes; every untouched key keeps its node unchanged, and
even for touched nodes the slot keys, the later slots and all node fields
other than `inputs` are preserved. -/
theorem values_fold_frame (ispec : Workflow) :
    ∀ (values : List (String × JVal)) (w w2 : Workflow),
      values.foldlM (applyInputValue ispec) w = .ok w2 →
      ∀ j n, dlookup j w = some n →
        ∃ n2, dlookup j w2 = some n2 ∧
          n2.class_type = n.class_type ∧ n2.title = n.title ∧
          n2.options = n.options ∧ n2.id = n.id ∧
          (¬ Targeted ispec values j → n2 = n) ∧
          n2.inputs.map Prod.fst = n.inputs.map Prod.fst ∧
          n2.inputs.tail = n.inputs.tail := by
  intro values
  induction values with
  | nil =>
    intro w w2 hfold j n hj
    have hww : w = w2 := Except.ok.inj hfold
    exact ⟨n, hww ▸ hj, rfl, rfl, rfl, rfl, fun _ => rfl, rfl, rfl⟩
  | cons kv rest ih =>
    intro w w2 hfold j n hj
    rw [List.foldlM_cons] at hfold
    cases h1 : applyInputValue ispec w kv with
    | error e => rw [h1, except_bind_error] at hfold; cases hfold
    | ok w1 =>
      rw [h1, except_bind_ok] at hfold
      obtain ⟨node, cur, k₀, v₀, rest0, hnd, hcls, hw, hinp, hw1⟩ :=
        applyInputValue_ok_elim h1
      by_cases hjid : node.id = j
      · have hcn : cur = n := by
          rw [hjid] at hw
          rw [hw] at hj
          exact Option.some.inj hj
        subst hcn
        have hj1 : dlookup j w1 =
            some {cur with inputs := (k₀, kv.2) :: rest0} := by
          rw [hw1, dlookup_dinsert, if_pos hjid]
        obtain ⟨n2, hn2, hc, ht, ho, hid, _, hmf, htl⟩ :=
          ih w1 w2 hfold j {cur with inputs := (k₀, kv.2) :: rest0} hj1
        have htgt : Targeted ispec (kv :: rest) j :=
          ⟨kv, List.mem_cons_self kv rest, node, hnd, hjid⟩
        refine ⟨n2, hn2, hc, ht, ho, hid, fun habs => absurd htgt habs, ?_, ?_⟩
        · rw [hmf, hinp]
          rfl
        · rw [htl, hinp]
          rfl
      · have hj1 : dlookup j w1 = some n := by
          rw [hw1, dlookup_dinsert, if_neg hjid]
          exact hj
        obtain ⟨n2, hn2, hc, ht, ho, hid, huntouched, hmf, htl⟩ :=
          ih w1 w2 hfold j n hj1
        refine ⟨n2, hn2, hc, ht, ho, hid, ?_, hmf, htl⟩
        intro habs
        refine huntouched fun htr => habs (targeted_cons_of_rest htr)

/-- The filename-prefix loop changes, at most, the `filename_prefix` slot of
recognized output nodes; every other key keeps its node unchanged, and every
slot other than `filename_prefix` keeps its value. -/
theorem outputs_fold_frame (dir sid : String) :
    ∀ (os : List (String × Node)) (w w2 : Workflow),
      os.foldlM (applyOutputPrefix dir sid) w = .ok w2 →
      ∀ j n, dlookup j w = some n →
        ∃ n2, dlookup j w2 = some n2 ∧
          n2.class_type = n.class_type ∧ n2.title = n.title ∧
          n2.options = n.options ∧ n2.id = n.id ∧
          (¬ OutRec os j → n2 = n) ∧
          (∀ k, k ≠ "filename_prefix" → dlookup k n2.inputs = dlookup k n.inputs) := by
  intro os
  induction os with
  | nil =>
    intro w w2 hfold j n hj
    have hww : w = w2 := Except.ok.inj hfold
    exact ⟨n, hww ▸ hj, rfl, rfl, rfl, rfl, fun _ => rfl, fun _ _ => rfl⟩
  | cons p rest ih =>
    intro w w2 hfold j n hj
    rw [List.foldlM_cons] at hfold
    cases h1 : applyOutputPrefix dir sid w p with
    | error e => rw [h1, except_bind_error] at hfold; cases hfold
    | ok w1 =>
      rw [h1, except_bind_ok] at hfold
      rcases applyOutputPrefix_elim h1 with ⟨hnot, hww⟩ | ⟨hct, cur, hw, hw1⟩
      · subst hww
        obtain ⟨n2, hn2, hc, ht, ho, hid, huntouched, hfp⟩ := ih w1 w2 hfold j n hj
        refine ⟨n2, hn2, hc, ht, ho, hid, ?_, hfp⟩
        intro habs
        refine huntouched fun hor => ?_
        exact habs (outRec_cons_of_rest hor)
      · by_cases hjid : p.2.id = j
        · have hcn : cur = n := by
            rw [hjid] at hw
            rw [hw] at hj
            exact Option.some.inj hj
          subst hcn
          have hj1 : dlookup j w1 = some (fpUpdated dir sid p.2.id cur) := by
            rw [hw1, dlookup_dinsert, if_pos hjid]
          obtain ⟨n2, hn2, hc, ht, ho, hid, _, hfp⟩ :=
            ih w1 w2 hfold j (fpUpdated dir sid p.2.id cur) hj1
          have hor : OutRec (p :: rest) j :=
            ⟨p, List.mem_cons_self p rest, hjid, hct⟩
          refine ⟨n2, hn2, hc, ht, ho, hid, fun habs => absurd hor habs, ?_⟩
          intro k hk
          rw [hfp k hk]
          show dlookup k (fpUpdated dir sid p.2.id cur).inputs = dlookup k cur.inputs
          rw [show (fpUpdated dir sid p.2.id cur).inputs =
              dinsert "filename_prefix"
                (JVal.str (posixJoin dir (sid ++ p.2.id ++ "_"))) cur.inputs from rfl,
            dlookup_dinsert, if_neg (fun hh => hk hh.symm)]
        · have hj1 : dlookup j w1 = some n := by
            rw [hw1, dlookup_dinsert, if_neg hjid]
            exact hj
          obtain ⟨n2, hn2, hc, ht, ho, hid, huntouched, hfp⟩ := ih w1 w2 hfold j n hj1
          refine ⟨n2, hn2, hc, ht, ho, hid, ?_, hfp⟩
          intro habs
          refine huntouched fun hor => ?_
          exact habs (outRec_cons_of_rest hor)

/-- A key cannot hold both a targeted input node and a recognized output
node: parsed inputs are input-classified, parsed outputs are
output-classified, and the two class prefixes are incompatible. -/
theorem targeted_not_outRec {wf : Workflow} {pr : ParseResult}
    {values : List (String × JVal)} {j : String}
    (hnd : (wf.map Prod.fst).Nodup) (hpr : parse_workflow wf = .ok pr)
    (ht : Targeted pr.inputs values j) (ho : OutRec pr.outputs j) : False := by
  obtain ⟨hspecI, hspecO⟩ := parse_spec_mem hnd hpr
  obtain ⟨kv, hkv, nd, hl1, hl2⟩ := ht
  obtain ⟨q, hq, hq1, hq2⟩ := ho
  have hin := hspecI (kv.1, nd) (mem_of_dlookup hl1)
  have hout := hspecO q hq
  have h1 : dlookup j pr.doc = some nd := hl2 ▸ hin.2
  have h2 : dlookup j pr.doc = some q.2 := hq1 ▸ hout.2
  have hnq : nd = q.2 := Option.some.inj (h1.symm.trans h2)
  exact input_not_in_out (hnq ▸ hin.1) hq2

/-- **C10 (confirmed).** Frame property of population: for a document with
distinct node ids, population modifies exactly what the claim allows.  Every
node of the document survives under its key with `class_type`, `title` and
`options` unchanged and the `id` annotation set to its key; a node targeted
by a supplied value keeps its slot keys and all input slots beyond the first
(only the first slot's value is overwritten); a recognized output node keeps
every input slot other than `filename_prefix`; and a node that is neither
targeted nor a recognized parsed output keeps its `inputs` exactly. -/
theorem c10_populate_frame (wf : Workflow) (dir sid : String)
    (values : List (String × JVal)) (wf2 : Workflow) (pr : ParseResult)
    (hnd : (wf.map Prod.fst).Nodup)
    (hpr : parse_workflow wf = .ok pr)
    (hpop : populate_workflow wf dir sid values = .ok wf2) :
    ∀ j n, dlookup j wf = some n →
      ∃ n2, dlookup j wf2 = some n2 ∧
        n2.class_type = n.class_type ∧ n2.title = n.title ∧
        n2.options = n.options ∧ n2.id = j ∧
        (¬ Targeted pr.inputs values j → ¬ OutRec pr.outputs j →
          n2.inputs = n.inputs) ∧
        (Targeted pr.inputs values j →
          n2.inputs.map Prod.fst = n.inputs.map Prod.fst ∧
          n2.inputs.tail = n.inputs.tail) ∧
        (OutRec pr.outputs j →
          ∀ k, k ≠ "filename_prefix" →
            dlookup k n2.inputs = dlookup k n.inputs) := by
  intro j n hj
  obtain ⟨pr', wf1, hp', hf1, hf2⟩ := populate_ok_elim hpop
  have hpe : pr' = pr := by
    rw [hpr] at hp'
    exact (Except.ok.inj hp').symm
  subst hpe
  have hdoc_annot : pr'.doc = wf.map fun p => (p.1, {p.2 with id := p.1}) := by
    obtain ⟨_, he⟩ := parse_ok_elim hpr
    rw [he]
  have hjdoc : dlookup j pr'.doc = some {n with id := j} := by
    rw [hdoc_annot]
    exact dlookup_annot hj
  obtain ⟨n1, hn1, hc1, ht1, ho1, hid1, hun1, hmf1, htl1⟩ :=
    values_fold_frame pr'.inputs values pr'.doc wf1 hf1 j {n with id := j} hjdoc
  obtain ⟨n2, hn2, hc2, ht2, ho2, hid2, hun2, hfp2⟩ :=
    outputs_fold_frame dir sid pr'.outputs wf1 wf2 hf2 j n1 hn1
  refine ⟨n2, hn2, ?_, ?_, ?_, ?_, ?_, ?_, ?_⟩
  · rw [hc2, hc1]
  · rw [ht2, ht1]
  · rw [ho2, ho1]
  · rw [hid2, hid1]
  · intro hnt hno
    have e1 : n1 = {n with id := j} := hun1 hnt
    have e2 : n2 = n1 := hun2 hno
    rw [e2, e1]
  · intro htg
    have hno : ¬ OutRec pr'.outputs j :=
      fun ho => targeted_not_outRec hnd hpr htg ho
    have e2 : n2 = n1 := hun2 hno
    exact ⟨by rw [e2, hmf1], by rw [e2, htl1]⟩
  · intro hor k hk
    have hnt : ¬ Targeted pr'.inputs values j :=
      fun ht => targeted_not_outRec hnd hpr ht hor
    have e1 : n1 = {n with id := j} := hun1 hnt
    rw [hfp2 k hk, e1]

/-- C10 witness fixture: an input node with two slots, a recognized output
node with two slots, and an unclassified node. -/
def c10Doc : Workflow :=
  [("1", {class_type := "CPackInputValue", title := "width",
          inputs := [("value", .int 5), ("extra", .str "keep")]}),
   ("7", {class_type := "CPackOutputFile", title := "out7",
          inputs := [("filename_prefix", .str "x"), ("other", .int 3)]}),
   ("9", {class_type := "KSampler", title := "k",
          inputs := [("steps", .int 20)]})]

/-- C10 witness fixture: the first node of `c10Doc`. -/
def c10n1 : Node :=
  {class_type := "CPackInputValue", title := "width",
   inputs := [("value", .int 5), ("extra", .str "keep")]}

/-- C10 witness fixture: `c10Doc` after populating `width := 9`. -/
def c10Doc2 : Workflow :=
  [("1", {class_type := "CPackInputValue", title := "width",
          inputs := [("value", .int 9), ("extra", .str "keep")], id := "1"}),
   ("7", {class_type := "CPackOutputFile", title := "out7",
          inputs := [("filename_prefix", .str "/o/s7_"), ("other", .int 3)], id := "7"}),
   ("9", {class_type := "KSampler", title := "k",
          inputs := [("steps", .int 20)], id := "9"})]

/-- C10 witness fixture: the parse of `c10Doc`. -/
def c10Pr : ParseResult :=
  ⟨[("width", {class_type := "CPackInputValue", title := "width",
               inputs := [("value", .int 5), ("extra", .str "keep")], id := "1"})],
   [("out7", {class_type := "CPackOutputFile", title := "out7",
              inputs := [("filename_prefix", .str "x"), ("other", .int 3)], id := "7"})],
   [("1", {class_type := "CPackInputValue", title := "width",
           inputs := [("value", .int 5), ("extra", .str "keep")], id := "1"}),
    ("7", {class_type := "CPackOutputFile", title := "out7",
           inputs := [("filename_prefix", .str "x"), ("other", .int 3)], id := "7"}),
    ("9", {class_type := "KSampler", title := "k",
           inputs := [("steps", .int 20)], id := "9"})]⟩

/-- Witness for C10 at key `1` of the concrete fixture. -/
theorem c10_populate_frame_witness :
    ∃ n2, dlookup "1" c10Doc2 = some n2 ∧
      n2.class_type = c10n1.class_type ∧ n2.title = c10n1.title ∧
      n2.options = c10n1.options ∧ n2.id = "1" ∧
      (¬ Targeted c10Pr.inputs [("width", .int 9)] "1" →
        ¬ OutRec c10Pr.outputs "1" → n2.inputs = c10n1.inputs) ∧
      (Targeted c10Pr.inputs [("width", .int 9)] "1" →
        n2.inputs.map Prod.fst = c10n1.inputs.map Prod.fst ∧
        n2.inputs.tail = c10n1.inputs.tail) ∧
      (OutRec c10Pr.outputs "1" →
        ∀ k, k ≠ "filename_prefix" →
          dlookup k n2.inputs = dlookup k c10n1.inputs) :=
  c10_populate_frame c10Doc "/o" "s" [("width", .int 9)] c10Doc2 c10Pr
    (by decide) rfl rfl "1" c10n1 rfl

end ComfyPack
